import Mathlib

/-!
Verification of the schema-driven resume-segmentation engine
(`worker-py/src/utils_sections.py` and `worker-py/src/app.py`).

The Python code is shallowly embedded: strings are `List Char` (wrapped in
`String` for record fields), Python's `-1` sentinels are `Int`, dictionaries
are association lists with insert-overwrite semantics, and every function is
a direct executable translation of the corresponding Python function.
-/

namespace ResumeSpec

/-- Python `str.isspace` restricted to the ASCII whitespace characters
that `isspace` recognises: space, tab, newline, carriage return,
vertical tab, form feed. -/
def pyIsSpace (c : Char) : Bool :=
  c = ' ' || c = '\t' || c = '\n' || c = '\r' || c = '\x0b' || c = '\x0c'

/-- Characters kept by the whitespace-stripping normalizer
(`_build_norm_map` keeps every non-whitespace character). -/
def keepChar (c : Char) : Bool := !(pyIsSpace c)

/-- Python `str.upper`, per character (ASCII). -/
def pyUpper (c : Char) : Char := c.toUpper

/-- Python `str.lower`, per character (ASCII). -/
def pyLower (c : Char) : Char := c.toLower

/-- Python `str.strip()`: drop leading and trailing whitespace. -/
def pyStrip (s : List Char) : List Char :=
  ((s.dropWhile pyIsSpace).reverse.dropWhile pyIsSpace).reverse

/-- Python `str.strip()` on `String` values (used for ids, titles, anchors). -/
def strip (s : String) : String := ⟨pyStrip s.data⟩

/-- Auxiliary recursion for `pySplitlines`: accumulates the current line
(in reverse) and splits at `\n`, `\r\n` and `\r`. -/
def splitlinesAux : List Char → List Char → List (List Char)
  | [], acc => [acc.reverse]
  | '\r' :: '\n' :: rest, acc =>
      acc.reverse :: (if rest.isEmpty then [] else splitlinesAux rest [])
  | '\n' :: rest, acc =>
      acc.reverse :: (if rest.isEmpty then [] else splitlinesAux rest [])
  | '\r' :: rest, acc =>
      acc.reverse :: (if rest.isEmpty then [] else splitlinesAux rest [])
  | c :: rest, acc => splitlinesAux rest (c :: acc)

/-- Python `str.splitlines()` for the line terminators `\n`, `\r\n`, `\r`
(the terminators occurring in the texts the splitter handles). -/
def pySplitlines (s : List Char) : List (List Char) :=
  if s.isEmpty then [] else splitlinesAux s []

/-- Python `"\n".join(lines)`. -/
def joinLines (ls : List (List Char)) : List Char :=
  List.intercalate ['\n'] ls

/-- Python substring test `pat in hay` (contiguous substring). -/
def containsSub (hay pat : List Char) : Bool :=
  (List.range (hay.length + 1)).any (fun i => pat.isPrefixOf (hay.drop i))

/-!
Text normalization index, from `_build_norm_map` in `utils_sections.py`:
the loop over `raw` keeps every non-whitespace character uppercased
(`norm`), records for each kept character its raw offset (`norm_to_raw`),
and records for every raw offset the number of kept characters strictly
before it (`raw_to_norm`).
-/

/-- The loop of `_build_norm_map`: the `(raw index, character)` pairs of the
non-whitespace characters of the text, indices starting at `i`. -/
def normPairs : List Char → Nat → List (Nat × Char)
  | [], _ => []
  | c :: rest, i =>
      if keepChar c then (i, c) :: normPairs rest (i + 1) else normPairs rest (i + 1)

/-- The normalized text: all whitespace removed, uppercased. -/
def norm_of (rc : List Char) : List Char :=
  (normPairs rc 0).map (fun p => pyUpper p.2)

/-- For each index of `norm_of rc`, the originating raw offset: the list of
raw positions holding non-whitespace characters, in order. -/
def norm_to_raw (rc : List Char) : List Nat :=
  (normPairs rc 0).map (fun p => p.1)

/-- For a raw offset `i`, the corresponding normalized offset: the number of
non-whitespace characters among the first `i` raw characters. -/
def raw_to_norm (rc : List Char) (i : Nat) : Nat :=
  (normPairs (rc.take i) 0).length

/-- Does `pat` occur in `hay` starting exactly at index `i`? -/
def matchesAt (hay pat : List Char) (i : Nat) : Bool :=
  pat.isPrefixOf (hay.drop i)

/-- Python `hay.find(pat, start)` for a non-empty `pat`: the least index
`i ≥ start` where `pat` occurs, if any. -/
def findFrom (hay pat : List Char) (start : Nat) : Option Nat :=
  ((List.range (hay.length + 1)).filter
    (fun i => decide (start ≤ i) && matchesAt hay pat i)).head?

/-- The search step of `_find_heading_idx_fuzzy` after the guards: clamp
the raw search offset, convert it to a normalized offset, search the
normalized text for the (already normalized, non-empty) needle `n`, and map
a hit back through `norm_to_raw`. -/
def fuzzyCore (rc : List Char) (n : List Char) (startFromRaw : Nat) : Int :=
  match findFrom (norm_of rc) n (raw_to_norm rc (min rc.length startFromRaw)) with
  | none => -1
  | some pos =>
      if (norm_to_raw rc).length ≤ pos then -1
      else ((norm_to_raw rc).getD pos 0 : Int)

/-- `_find_heading_idx_fuzzy`: find `needle` in `rc` tolerant to whitespace
inside the heading, by searching the whitespace-stripped uppercased text and
mapping the hit back to a raw offset.  Returns `-1` when not found. -/
def findHeadingIdxFuzzy (rc : List Char) (needle : String) (startFromRaw : Nat) : Int :=
  if needle.data.isEmpty then -1
  else if ((needle.data.filter keepChar).map pyUpper).isEmpty then -1
  else fuzzyCore rc ((needle.data.filter keepChar).map pyUpper) startFromRaw

/-!
Schema data model, from the dict shapes consumed by
`split_resume_by_schema`, `_get_anchor_candidates` and
`_extract_schema_anchors`.  A locator field of a section dict is either
absent, a string, or a list of strings (`FieldVal`).
-/

/-- Value of a locator field of a section dict: absent, a string, or a
list of strings. -/
inductive FieldVal where
  | vnone : FieldVal
  | vstr : String → FieldVal
  | vlist : List String → FieldVal
deriving DecidableEq, Repr

/-- A `groups` entry `{id, title}`; `title := none` models an absent key. -/
structure Grp where
  id : String
  title : Option String
deriving DecidableEq, Repr

/-- A `sections` entry.  `title := none` and `parentId := none` model
absent (or Python-falsy) keys; `anchors := some (s, e)` models an
`anchors` dict with `start` entry `s` and `end` entry `e`. -/
structure SecD where
  id : String
  title : Option String
  parentId : Option String
  isGroup : Bool
  anchors : Option (FieldVal × FieldVal)
  start : FieldVal
  end_ : FieldVal
  anchor : FieldVal
  pattern : FieldVal
  match_ : FieldVal
deriving DecidableEq, Repr

/-- A parsed schema object: `groups` and `sections` lists. -/
structure Schema where
  groups : List Grp
  sections : List SecD
deriving DecidableEq, Repr

/-- An output section node `{id, title, text, parentId, isGroup}`. -/
structure Node where
  id : String
  title : String
  text : String
  parentId : Option String
  isGroup : Bool
deriving DecidableEq, Repr

/-- The internal `_Span` record of the splitter. -/
structure Span where
  sec_id : String
  title : String
  parentId : Option String
  start_idx : Nat
  end_idx : Nat
  text : String
deriving DecidableEq, Repr

/-- `_normalize_candidates`: normalize a locator field value to a list of
non-blank stripped strings. -/
def normalizeCandidates (v : FieldVal) : List String :=
  match v with
  | .vnone => []
  | .vstr s => if strip s = "" then [] else [strip s]
  | .vlist xs => xs.filterMap (fun x => if strip x = "" then none else some (strip x))

/-- `_get_anchor_candidates sec which` (`which = true` for `"start"`,
`false` for `"end"`): prefer the `anchors` dict, then the flat
`start`/`end` field, then the `anchor` field. -/
def getAnchorCandidates (sec : SecD) (which : Bool) : List String :=
  match sec.anchors with
  | some (s, e) => normalizeCandidates (if which then s else e)
  | none =>
      match (if which then sec.start else sec.end_) with
      | .vnone =>
          match sec.anchor with
          | .vnone => []
          | a => normalizeCandidates a
      | v => normalizeCandidates v

/-- Resume-heading vocabulary of `_looks_like_heading`. -/
def commonHeadingWords : List String :=
  ["summary", "skills", "experience", "education", "certifications",
   "publications", "patents", "projects"]

/-- `_looks_like_heading(line, _unused)`: blank lines are not headings;
very short lines are; otherwise a line is a heading when it is short with a
high uppercase-letter share, or short and containing a common resume
heading word.  The second Python argument is unused by the source. -/
def looksLikeHeading (line : List Char) (_unusedTitle : String) : Bool :=
  let s := pyStrip line
  if s.isEmpty then false
  else if s.length ≤ 2 then true
  else
    let letters := s.filter Char.isAlpha
    let upperOk :=
      !letters.isEmpty &&
      17 * letters.length ≤ 20 * (letters.filter Char.isUpper).length &&
      s.length ≤ 60
    let low := s.map pyLower
    let commonOk :=
      commonHeadingWords.any (fun k => containsSub low k.data) && s.length ≤ 60
    upperOk || commonOk

/-- The header-stripping step applied to a sliced span
(`split_resume_by_schema`, the block after `text = raw[s_idx:e_idx].strip()`):
when the first line of the trimmed slice looks like a heading, drop it and
the blank lines after it. -/
def buildLeafText (slice : List Char) (title : String) : List Char :=
  let text := pyStrip slice
  if text.isEmpty then text
  else
    let lines := pySplitlines text
    let firstLine := pyStrip (lines.headD [])
    if !firstLine.isEmpty && looksLikeHeading firstLine title then
      pyStrip (joinLines ((lines.tail).dropWhile (fun l => (pyStrip l).isEmpty)))
    else text

/-- The whitespace characters of the fallback advance loop
(`raw[s_idx] in "\r\n\t "`). -/
def wsAdvanceChar (c : Char) : Bool :=
  c = '\r' || c = '\n' || c = '\t' || c = ' '

/-- Auxiliary recursion for `advanceWs` over the suffix starting at the
current index. -/
def advanceWsAux : List Char → Nat → Nat
  | [], i => i
  | c :: rest, i => if wsAdvanceChar c then advanceWsAux rest (i + 1) else i

/-- The fallback whitespace-advance loop: starting at `i`, step past the
characters of `"\r\n\t "` (stopping at the end of the text). -/
def advanceWs (rc : List Char) (i : Nat) : Nat :=
  advanceWsAux (rc.drop i) i

/-- The candidate scan loop (`for cand in candidates: ... break`): try the
candidates in schema order from offset `k`, and return the first fuzzy hit;
`-1` when every candidate fails. -/
def scanCands (rc : List Char) (cands : List String) (k : Nat) : Int :=
  match cands with
  | [] => -1
  | c :: rest =>
      let r := findHeadingIdxFuzzy rc c k
      if 0 ≤ r then r else scanCands rc rest k

/-- Insert-or-overwrite into an association list, keeping the original
position of an existing key (Python dict assignment). -/
def dinsert (d : List (String × Int)) (k : String) (v : Int) : List (String × Int) :=
  if d.any (fun kv => kv.1 = k) then
    d.map (fun kv => if kv.1 = k then (k, v) else kv)
  else d ++ [(k, v)]

/-- Dictionary lookup (`d.get k`). -/
def dget (d : List (String × Int)) (k : String) : Option Int :=
  (d.find? (fun kv => kv.1 = k)).map (fun kv => kv.2)

/-- `group_anchor.get(gid, -1)`. -/
def gaVal (d : List (String × Int)) (k : String) : Int :=
  (dget d k).getD (-1)

/-- The values view of the group-anchor dictionary. -/
def gaValues (d : List (String × Int)) : List Int :=
  d.map (fun kv => kv.2)

/-- One iteration of step 1 of `split_resume_by_schema`: a blank-id group
is skipped; otherwise its resolved title anchor (or `-1` for a blank title)
is stored under its id. -/
def gaStep (rc : List Char) (d : List (String × Int)) (g : Grp) : List (String × Int) :=
  if strip g.id = "" then d
  else
    dinsert d (strip g.id)
      (if strip (g.title.getD "") = "" then -1
       else findHeadingIdxFuzzy rc (strip (g.title.getD "")) 0)

/-- Step 1 of `split_resume_by_schema`: locate each group's title anchor. -/
def buildGroupAnchor (rc : List Char) (groups : List Grp) : List (String × Int) :=
  groups.foldl (gaStep rc) []

/-- The effective `parentId` local of the splitter:
`str(sec.get("parentId")).strip() if sec.get("parentId") else None`. -/
def parentVarOf (sec : SecD) : Option String :=
  sec.parentId.map strip

/-- The `search_from` offset of a section: the parent group's resolved
anchor when the parent id is non-blank and resolved, else `0`. -/
def searchFromOf (ga : List (String × Int)) (sec : SecD) : Nat :=
  match parentVarOf sec with
  | some p => if p ≠ "" && 0 ≤ gaVal ga p then (gaVal ga p).toNat else 0
  | none => 0

/-- Start resolution for one leaf: scan the candidates from `search_from`,
retry from the top of the document, then fall back to the parent anchor
advanced past whitespace, else `0`. -/
def resolveStart (rc : List Char) (ga : List (String × Int)) (sec : SecD) : Nat :=
  let cands := getAnchorCandidates sec true
  let sf := searchFromOf ga sec
  let s1 := scanCands rc cands sf
  let s2 := if s1 < 0 then scanCands rc cands 0 else s1
  if s2 < 0 then
    match parentVarOf sec with
    | some p =>
        if p ≠ "" && 0 ≤ gaVal ga p then advanceWs rc (gaVal ga p).toNat else 0
    | none => 0
  else s2.toNat

/-- The minimum group-anchor offset strictly greater than `s`
(`min([v for v in group_anchor.values() if v > s_idx], default=len(raw))`). -/
def nextGroupPos (ga : List (String × Int)) (s : Nat) (len : Nat) : Nat :=
  (((gaValues ga).filterMap
      (fun v => if (s : Int) < v then some v.toNat else none)).min?).getD len

/-- End resolution for one leaf: scan the end candidates strictly after the
start, fall back to the next group anchor (else end of text), and clamp a
non-positive-length result to the end of text. -/
def resolveEnd (rc : List Char) (ga : List (String × Int)) (sec : SecD) (s : Nat) : Nat :=
  let eScan := scanCands rc (getAnchorCandidates sec false) (s + 1)
  let e2 :=
    if eScan < 0 then
      let np := nextGroupPos ga s rc.length
      if s < np then np else rc.length
    else eScan.toNat
  if e2 ≤ s then rc.length else e2

/-- The per-section body of the span-extraction loop of
`split_resume_by_schema`: blank-id and group entries produce no span; every
other entry produces exactly one span. -/
def buildSpan (rc : List Char) (ga : List (String × Int)) (sec : SecD) : Option Span :=
  let sid := strip sec.id
  if sid = "" then none
  else if sec.isGroup then none
  else
    let title := if strip (sec.title.getD sec.id) = "" then sid else strip (sec.title.getD sec.id)
    let sIdx := resolveStart rc ga sec
    let eIdx := resolveEnd rc ga sec sIdx
    let slice := (rc.drop sIdx).take (eIdx - sIdx)
    some
      { sec_id := sid
        title := title
        parentId := parentVarOf sec
        start_idx := sIdx
        end_idx := eIdx
        text := ⟨buildLeafText slice title⟩ }

/-- The spans list of one split call. -/
def splitSpans (rc : List Char) (ga : List (String × Int)) (sections : List SecD) : List Span :=
  sections.filterMap (buildSpan rc ga)

/-- `earliest_child`: the smallest span start among the spans whose
(truthy) parent id equals `p`. -/
def earliestChild (spans : List Span) (p : String) : Option Nat :=
  ((spans.filter (fun sp => sp.parentId = some p)).map (fun sp => sp.start_idx)).min?

/-- Step 3 of `split_resume_by_schema`: a group node positioned at the
minimum of its own resolved anchor and its earliest child start, with the
sentinel `10^18` when neither exists. -/
def mkGroupNode (ga : List (String × Int)) (spans : List Span) (g : Grp) :
    Option (Nat × Node) :=
  let gid := strip g.id
  if gid = "" then none
  else
    let a := gaVal ga gid
    let cands : List Nat :=
      (if 0 ≤ a then [a.toNat] else []) ++
      (match earliestChild spans gid with
       | some v => [v]
       | none => [])
    let pos := (cands.min?).getD (10 ^ 18)
    some (pos, { id := gid
                 title := strip (g.title.getD (strip g.id))
                 text := ""
                 parentId := none
                 isGroup := true })

/-- The leaf output node of a span. -/
def leafNode (sp : Span) : Node :=
  { id := sp.sec_id
    title := sp.title
    text := sp.text
    parentId := sp.parentId
    isGroup := false }

/-- Step 4 of `split_resume_by_schema`: group nodes at their positions
followed by leaf nodes at `start_idx + 1`. -/
def allNodesOf (rc : List Char) (schema : Schema) : List (Nat × Node) :=
  let ga := buildGroupAnchor rc schema.groups
  let spans := splitSpans rc ga schema.sections
  (schema.groups.filterMap (mkGroupNode ga spans)) ++
    spans.map (fun sp => (sp.start_idx + 1, leafNode sp))

/-- The sort key comparison of `all_nodes.sort(key=lambda x: (x[0], 0 if
isGroup else 1))`: position first, groups before leaves at equal position. -/
def keyLe (a b : Nat × Node) : Bool :=
  decide (a.1 < b.1) ||
  (decide (a.1 = b.1) &&
   decide ((if a.2.isGroup then 0 else 1) ≤ (if b.2.isGroup then (0 : Nat) else 1)))

/-- Stable insertion into a key-sorted list: an element is placed before
the first element it compares `keyLe` to, so equal keys keep their
original relative order (as Python's stable `list.sort` does). -/
def insertNode (x : Nat × Node) : List (Nat × Node) → List (Nat × Node)
  | [] => [x]
  | y :: ys => if keyLe x y then x :: y :: ys else y :: insertNode x ys

/-- Stable sort by `keyLe`, computing the same list as `list.sort` with the
key `(position, group-first flag)`. -/
def sortNodes : List (Nat × Node) → List (Nat × Node)
  | [] => []
  | x :: xs => insertNode x (sortNodes xs)

/-- The `(id, isGroup)` de-duplication key. -/
def nodeKey (n : Node) : String × Bool := (n.id, n.isGroup)

/-- Step 5 of `split_resume_by_schema`: keep the first node of each
`(id, isGroup)` key. -/
def dedupGo (seen : List (String × Bool)) : List Node → List Node
  | [] => []
  | n :: rest =>
      if nodeKey n ∈ seen then dedupGo seen rest
      else n :: dedupGo (nodeKey n :: seen) rest

/-- De-duplicate by `(id, isGroup)`, keeping first occurrences. -/
def dedupNodes (ns : List Node) : List Node := dedupGo [] ns

/-- `split_resume_by_schema raw schema`: the full splitter. -/
def split_resume_by_schema (raw : String) (schema : Schema) : List Node :=
  if strip raw = "" then []
  else
    dedupNodes ((sortNodes (allNodesOf raw.data schema)).map (fun x => x.2))

/-!
The `/parse` endpoint layer, from `app.py`: the pre-split anchor
applicability check (`_extract_schema_anchors`,
`_check_schema_anchor_match`) and the `parse` handler with its post-split
quality gate.  File reading, JSON decoding and logging are outside the
model: `parse` takes the extracted raw text and the (optional) decoded
schema object directly.
-/

/-- Result of `_check_schema_anchor_match` (the fields the control flow
reads). -/
structure AnchorCheck where
  total : Nat
  matched : Nat
  shouldFallback : Bool
deriving DecidableEq, Repr

/-- One field's contribution in `_extract_schema_anchors`: only a
non-blank string value is collected (`val and isinstance(val, str) and
val.strip()`), stripped. -/
def fieldAnchorStrings (v : FieldVal) : List String :=
  match v with
  | .vstr s => if strip s = "" then [] else [strip s]
  | _ => []

/-- `_extract_schema_anchors`: collect the string-valued `start`, `end`,
`anchor`, `pattern`, `match` fields over all section entries. -/
def extractSchemaAnchors (schema : Schema) : List String :=
  (schema.sections.map (fun s =>
    fieldAnchorStrings s.start ++ fieldAnchorStrings s.end_ ++
    fieldAnchorStrings s.anchor ++ fieldAnchorStrings s.pattern ++
    fieldAnchorStrings s.match_)).flatten

/-- One anchor's match test in `_check_schema_anchor_match`: the stripped
uppercased anchor is non-empty and a substring of the uppercased raw
text. -/
def anchorMatchedIn (raw : String) (a : String) : Bool :=
  let an := (pyStrip a.data).map pyUpper
  !an.isEmpty && containsSub (raw.data.map pyUpper) an

/-- `_check_schema_anchor_match`: no anchors means the check is skipped;
otherwise fall back when at least two anchors exist and none matched, or
when the match ratio is below 10 percent (`matched / total < 0.1`, i.e.
`10 * matched < total`). -/
def checkSchemaAnchorMatch (schema : Schema) (raw : String) : AnchorCheck :=
  let anchors := extractSchemaAnchors schema
  if anchors.isEmpty then ⟨0, 0, false⟩
  else
    let matched := (anchors.filter (anchorMatchedIn raw)).length
    let total := anchors.length
    ⟨total, matched,
      (decide (2 ≤ total) && decide (matched = 0)) || decide (10 * matched < total)⟩

/-- The `/parse` response surface the claims are about: `ok`, the
`parsing_mode` of the diagnostics, the section list, and the `error`
string. -/
structure ParseResp where
  ok : Bool
  mode : String
  sections : List Node
  error : Option String
deriving DecidableEq, Repr

/-- The catch-all section `{id:"unknown", title:"UNKNOWN", text:raw,
isGroup:false}`. -/
def unknownNode (raw : String) : Node :=
  { id := "unknown", title := "UNKNOWN", text := raw, parentId := none, isGroup := false }

/-- The successful fallback response (`ok:true`, one catch-all node). -/
def fallbackResp (raw : String) : ParseResp :=
  ⟨true, "fallback_unknown", [unknownNode raw], none⟩

/-- Normalization of one raw section dict to the `Section` model in
`parse`: blank ids and titles get positional defaults. -/
def normalizeNode (i : Nat) (s : Node) : Node :=
  { id := if s.id = "" then "s" ++ toString (i + 1) else s.id
    title := if s.title = "" then "Section " ++ toString (i + 1) else s.title
    text := s.text
    parentId := s.parentId
    isGroup := s.isGroup }

/-- Normalize a raw section list with positional defaults. -/
def normalizeNodes (ns : List Node) : List Node :=
  ns.enum.map (fun p => normalizeNode p.1 p.2)

/-- The post-split output-quality validation of `parse` (the `schema_obj
is not None` branch): only-groups fails, low non-empty-leaf share or low
total leaf text fails, otherwise the mode is `schema`. -/
def qualityGate (raw : String) (sections : List Node) : ParseResp :=
  let g := (sections.filter (fun s => s.isGroup)).length
  let l := (sections.filter (fun s => !s.isGroup)).length
  if 0 < g ∧ l = 0 then fallbackResp raw
  else if 0 < l then
    let nonEmpty :=
      (sections.filter (fun s => !s.isGroup && decide (strip s.text ≠ ""))).length
    let totalLen :=
      ((sections.filter (fun s => !s.isGroup)).map (fun s => (strip s.text).length)).sum
    if 10 * nonEmpty < 3 * l then fallbackResp raw
    else if totalLen < 200 then fallbackResp raw
    else ⟨true, "schema", sections, none⟩
  else fallbackResp raw

/-- The `/parse` handler on extracted text and an optional schema object:
empty text is a hard failure; no schema is the unconditional fallback mode;
with a schema, the anchor check may fall back early, a zero-section split
is a hard failure, and otherwise the quality gate decides. -/
def parse (raw : String) (schemaObj : Option Schema) : ParseResp :=
  if strip raw = "" then ⟨false, "error", [], some "parse failed: empty text"⟩
  else
    match schemaObj with
    | some sch =>
        let am := checkSchemaAnchorMatch sch raw
        if am.shouldFallback then fallbackResp raw
        else
          let sectionsRaw := split_resume_by_schema raw sch
          if sectionsRaw.isEmpty then
            ⟨false, "error", [], some "schema parsing produced 0 sections"⟩
          else qualityGate raw (normalizeNodes sectionsRaw)
    | none => ⟨true, "fallback_unknown", normalizeNodes [unknownNode raw], none⟩


/-!
Lemma kit: normalization-index invariants, search monotonicity, candidate
scan characterization, dictionary and sorting facts.
-/

theorem mem_normPairs {rc : List Char} :
    ∀ {i : Nat} {r : Nat} {c : Char}, (r, c) ∈ normPairs rc i →
      i ≤ r ∧ r - i < rc.length ∧ keepChar c = true ∧ rc.getD (r - i) ' ' = c := by
  induction rc with
  | nil => intro i r c h; simp [normPairs] at h
  | cons d rest ih =>
      intro i r c h
      by_cases hd : keepChar d
      · simp only [normPairs, hd, if_pos, List.mem_cons] at h
        rcases h with h | h
        · obtain ⟨hr, hc⟩ := Prod.mk.injEq .. ▸ h
          subst hr; subst hc
          simp [hd]
        · obtain ⟨h1, h2, h3, h4⟩ := ih h
          refine ⟨by omega, by simp; omega, h3, ?_⟩
          have hri : r - i = (r - (i + 1)) + 1 := by omega
          rw [hri, List.getD_cons_succ]
          exact h4
      · simp only [normPairs, hd, if_neg, Bool.false_eq_true, not_false_iff] at h
        obtain ⟨h1, h2, h3, h4⟩ := ih h
        refine ⟨by omega, by simp; omega, h3, ?_⟩
        have hri : r - i = (r - (i + 1)) + 1 := by omega
        rw [hri, List.getD_cons_succ]
        exact h4

theorem mem_norm_to_raw {rc : List Char} {r : Nat} (h : r ∈ norm_to_raw rc) :
    r < rc.length ∧ keepChar (rc.getD r ' ') = true := by
  simp only [norm_to_raw, List.mem_map] at h
  obtain ⟨⟨r', c⟩, hmem, hr⟩ := h
  simp only at hr
  subst hr
  obtain ⟨-, h2, h3, h4⟩ := mem_normPairs hmem
  simp only [Nat.sub_zero] at h2 h4
  exact ⟨h2, h4 ▸ h3⟩

theorem norm_lengths_eq (rc : List Char) :
    (norm_of rc).length = (norm_to_raw rc).length := by
  simp [norm_of, norm_to_raw]


theorem matchesAt_lt_length {hay pat : List Char} {i : Nat}
    (h : matchesAt hay pat i = true) (hp : pat ≠ []) : i < hay.length := by
  have hpre : pat <+: hay.drop i := List.isPrefixOf_iff_prefix.mp h
  have hlen := hpre.length_le
  have hplen : 0 < pat.length := List.length_pos.mpr hp
  simp only [List.length_drop] at hlen
  omega

theorem findFrom_eq_none_iff (hay pat : List Char) (s : Nat) :
    findFrom hay pat s = none ↔
      ∀ i, s ≤ i → i ≤ hay.length → matchesAt hay pat i = false := by
  unfold findFrom
  rw [List.head?_eq_none_iff, List.filter_eq_nil_iff]
  constructor
  · intro h i hs hle
    have hi : i ∈ List.range (hay.length + 1) := List.mem_range.mpr (by omega)
    have hni := h i hi
    simp only [Bool.and_eq_true, decide_eq_true_eq, not_and] at hni
    by_cases hm : matchesAt hay pat i = true
    · exact absurd hm (hni hs)
    · simpa using hm
  · intro h i hi
    have hlt : i < hay.length + 1 := List.mem_range.mp hi
    simp only [Bool.and_eq_true, decide_eq_true_eq, not_and]
    intro hs
    simp [h i hs (by omega)]

theorem findFrom_none_mono {hay pat : List Char} {s : Nat}
    (h : findFrom hay pat 0 = none) : findFrom hay pat s = none := by
  rw [findFrom_eq_none_iff] at h ⊢
  intro i _ hle
  exact h i (Nat.zero_le i) hle

theorem findFrom_some {hay pat : List Char} {s p : Nat}
    (h : findFrom hay pat s = some p) : s ≤ p ∧ matchesAt hay pat p = true := by
  unfold findFrom at h
  have hp : p ∈ (List.range (hay.length + 1)).filter
      (fun i => decide (s ≤ i) && matchesAt hay pat i) := by
    rcases hx : (List.range (hay.length + 1)).filter
        (fun i => decide (s ≤ i) && matchesAt hay pat i) with - | ⟨a, as⟩
    · rw [hx] at h; simp at h
    · rw [hx] at h
      simp only [List.head?_cons, Option.some.injEq] at h
      subst h
      exact List.mem_cons_self a as
  rw [List.mem_filter] at hp
  have hp2 := hp.2
  simp only [Bool.and_eq_true, decide_eq_true_eq] at hp2
  exact hp2

theorem raw_to_norm_zero (rc : List Char) : raw_to_norm rc 0 = 0 := by
  simp [raw_to_norm, normPairs]

theorem fuzzyCore_spec (rc n : List Char) (k : Nat) (hn : n ≠ []) :
    (findFrom (norm_of rc) n (raw_to_norm rc (min rc.length k)) = none ∧
       fuzzyCore rc n k = -1) ∨
    (∃ pos : Nat, pos < (norm_to_raw rc).length ∧
       findFrom (norm_of rc) n (raw_to_norm rc (min rc.length k)) = some pos ∧
       fuzzyCore rc n k = ((norm_to_raw rc).getD pos 0 : Int)) := by
  cases hf : findFrom (norm_of rc) n (raw_to_norm rc (min rc.length k)) with
  | none =>
      left
      refine ⟨rfl, ?_⟩
      unfold fuzzyCore
      rw [hf]
  | some pos =>
      right
      have hm := (findFrom_some hf).2
      have hlt := matchesAt_lt_length hm hn
      rw [norm_lengths_eq] at hlt
      refine ⟨pos, hlt, rfl, ?_⟩
      unfold fuzzyCore
      rw [hf]
      exact if_neg (by omega)

theorem fuzzy_eq_neg_one_or_valid (rc : List Char) (needle : String) (k : Nat) :
    findHeadingIdxFuzzy rc needle k = -1 ∨
      (0 ≤ findHeadingIdxFuzzy rc needle k ∧
       (findHeadingIdxFuzzy rc needle k).toNat < rc.length ∧
       keepChar (rc.getD (findHeadingIdxFuzzy rc needle k).toNat ' ') = true) := by
  unfold findHeadingIdxFuzzy
  by_cases h1 : needle.data.isEmpty
  · left; simp [h1]
  · by_cases h2 : ((needle.data.filter keepChar).map pyUpper).isEmpty
    · left; simp [h1, h2]
    · rw [if_neg (by simpa using h1), if_neg (by simpa using h2)]
      have hn : (needle.data.filter keepChar).map pyUpper ≠ [] := by
        intro hx; rw [hx] at h2; exact h2 rfl
      rcases fuzzyCore_spec rc ((needle.data.filter keepChar).map pyUpper) k hn with
        ⟨-, hv⟩ | ⟨pos, hlt, -, hv⟩
      · left; exact hv
      · right
        have hx : (norm_to_raw rc).getD pos 0 ∈ norm_to_raw rc := by
          rw [List.getD_eq_getElem _ _ hlt]
          exact List.getElem_mem hlt
        have hvalid := mem_norm_to_raw hx
        rw [hv]
        refine ⟨by omega, ?_, ?_⟩
        · rw [Int.toNat_ofNat]; exact hvalid.1
        · rw [Int.toNat_ofNat]; exact hvalid.2

theorem fuzzy_nonneg_valid {rc : List Char} {needle : String} {k : Nat}
    (h : 0 ≤ findHeadingIdxFuzzy rc needle k) :
    (findHeadingIdxFuzzy rc needle k).toNat < rc.length ∧
    keepChar (rc.getD (findHeadingIdxFuzzy rc needle k).toNat ' ') = true := by
  rcases fuzzy_eq_neg_one_or_valid rc needle k with hneg | ⟨-, hv⟩
  · rw [hneg] at h; omega
  · exact hv

theorem fuzzy_neg_mono {rc : List Char} {needle : String}
    (h : findHeadingIdxFuzzy rc needle 0 = -1) (k : Nat) :
    findHeadingIdxFuzzy rc needle k = -1 := by
  unfold findHeadingIdxFuzzy at h ⊢
  by_cases h1 : needle.data.isEmpty
  · simp [h1]
  · by_cases h2 : ((needle.data.filter keepChar).map pyUpper).isEmpty
    · simp [h1, h2]
    · rw [if_neg (by simpa using h1), if_neg (by simpa using h2)] at h ⊢
      have hn : (needle.data.filter keepChar).map pyUpper ≠ [] := by
        intro hx; rw [hx] at h2; exact h2 rfl
      rcases fuzzyCore_spec rc ((needle.data.filter keepChar).map pyUpper) 0 hn with
        ⟨hf0, -⟩ | ⟨pos, -, -, hv⟩
      · rw [Nat.min_zero, raw_to_norm_zero] at hf0
        rcases fuzzyCore_spec rc ((needle.data.filter keepChar).map pyUpper) k hn with
          ⟨-, hv⟩ | ⟨pos, -, hf, -⟩
        · exact hv
        · exfalso
          rw [findFrom_none_mono hf0] at hf
          exact Option.noConfusion hf
      · rw [hv] at h
        exact absurd h (by omega)

theorem scanCands_neg {rc : List Char} {cands : List String} {k : Nat}
    (h : ∀ c ∈ cands, findHeadingIdxFuzzy rc c k = -1) :
    scanCands rc cands k = -1 := by
  induction cands with
  | nil => rfl
  | cons c rest ih =>
      unfold scanCands
      rw [h c (List.mem_cons_self c rest)]
      rw [if_neg (by omega : ¬ (0 : Int) ≤ -1)]
      exact ih (fun x hx => h x (List.mem_cons_of_mem c hx))

theorem scanCands_first {rc : List Char} {k : Nat} (pre : List String)
    {c : String} (post : List String)
    (hpre : ∀ x ∈ pre, findHeadingIdxFuzzy rc x k = -1)
    (hc : 0 ≤ findHeadingIdxFuzzy rc c k) :
    scanCands rc (pre ++ c :: post) k = findHeadingIdxFuzzy rc c k := by
  induction pre with
  | nil =>
      rw [List.nil_append]
      unfold scanCands
      rw [if_pos hc]
  | cons x xs ih =>
      have hx := hpre x (List.mem_cons_self x xs)
      rw [List.cons_append]
      unfold scanCands
      rw [hx]
      rw [if_neg (by omega : ¬ (0 : Int) ≤ -1)]
      exact ih (fun y hy => hpre y (List.mem_cons_of_mem x hy))

theorem scanCands_nonneg_exists {rc : List Char} {cands : List String} {k : Nat}
    (h : 0 ≤ scanCands rc cands k) :
    ∃ c ∈ cands, scanCands rc cands k = findHeadingIdxFuzzy rc c k ∧
      0 ≤ findHeadingIdxFuzzy rc c k := by
  induction cands with
  | nil => simp [scanCands] at h
  | cons c rest ih =>
      unfold scanCands at h ⊢
      by_cases hc : 0 ≤ findHeadingIdxFuzzy rc c k
      · rw [if_pos hc] at h ⊢
        exact ⟨c, List.mem_cons_self c rest, rfl, hc⟩
      · rw [if_neg hc] at h ⊢
        obtain ⟨x, hx, he, hge⟩ := ih h
        exact ⟨x, List.mem_cons_of_mem c hx, he, hge⟩

theorem mem_dinsert {d : List (String × Int)} {k : String} {v : Int}
    {kv : String × Int} (h : kv ∈ dinsert d k v) : kv ∈ d ∨ kv = (k, v) := by
  unfold dinsert at h
  by_cases hk : d.any (fun kv => kv.1 = k)
  · rw [if_pos hk] at h
    rw [List.mem_map] at h
    obtain ⟨x, hx, he⟩ := h
    by_cases hx1 : x.1 = k
    · right; rw [if_pos hx1] at he; exact he.symm
    · left; rw [if_neg hx1] at he; exact he ▸ hx
  · rw [if_neg hk] at h
    rcases List.mem_append.mp h with h1 | h1
    · left; exact h1
    · right; simpa using h1

theorem dget_mem {d : List (String × Int)} {k : String} {v : Int}
    (h : dget d k = some v) : (k, v) ∈ d := by
  unfold dget at h
  cases hf : d.find? (fun kv => kv.1 = k) with
  | none => rw [hf] at h; simp at h
  | some kv =>
      rw [hf] at h
      have hm := List.mem_of_find?_eq_some hf
      have hp := List.find?_some hf
      simp only [decide_eq_true_eq] at hp
      cases kv with
      | mk a b =>
          simp only at hp
          subst hp
          simp only [Option.map_some'] at h
          obtain rfl : b = v := by simpa using h
          exact hm

theorem gaStep_valid {rc : List Char} {d : List (String × Int)} {g : Grp}
    (hd : ∀ kv ∈ d, 0 ≤ kv.2 →
      kv.2.toNat < rc.length ∧ keepChar (rc.getD kv.2.toNat ' ') = true) :
    ∀ kv ∈ gaStep rc d g, 0 ≤ kv.2 →
      kv.2.toNat < rc.length ∧ keepChar (rc.getD kv.2.toNat ' ') = true := by
  intro kv hkv hge
  unfold gaStep at hkv
  by_cases hgid : strip g.id = ""
  · rw [if_pos hgid] at hkv
    exact hd kv hkv hge
  · rw [if_neg hgid] at hkv
    rcases mem_dinsert hkv with hold | hnew
    · exact hd kv hold hge
    · subst hnew
      simp only at hge ⊢
      by_cases ht : strip (g.title.getD "") = ""
      · rw [if_pos ht] at hge; omega
      · rw [if_neg ht] at hge ⊢
        exact fuzzy_nonneg_valid hge

theorem buildGroupAnchor_valid {rc : List Char} {gs : List Grp} :
    ∀ kv ∈ buildGroupAnchor rc gs, 0 ≤ kv.2 →
      kv.2.toNat < rc.length ∧ keepChar (rc.getD kv.2.toNat ' ') = true := by
  unfold buildGroupAnchor
  suffices hgen : ∀ d : List (String × Int),
      (∀ kv ∈ d, 0 ≤ kv.2 →
        kv.2.toNat < rc.length ∧ keepChar (rc.getD kv.2.toNat ' ') = true) →
      ∀ kv ∈ gs.foldl (gaStep rc) d, 0 ≤ kv.2 →
        kv.2.toNat < rc.length ∧ keepChar (rc.getD kv.2.toNat ' ') = true by
    exact hgen [] (by intro kv hkv; simp at hkv)
  induction gs with
  | nil => intro d hd; simpa using hd
  | cons g rest ih =>
      intro d hd
      rw [List.foldl_cons]
      exact ih (gaStep rc d g) (gaStep_valid hd)

theorem gaVal_valid {rc : List Char} {gs : List Grp} {p : String}
    (h : 0 ≤ gaVal (buildGroupAnchor rc gs) p) :
    (gaVal (buildGroupAnchor rc gs) p).toNat < rc.length ∧
    keepChar (rc.getD (gaVal (buildGroupAnchor rc gs) p).toNat ' ') = true := by
  unfold gaVal at h ⊢
  cases hd : dget (buildGroupAnchor rc gs) p with
  | none => rw [hd] at h; simp only [Option.getD_none] at h; omega
  | some v =>
      simp only [hd, Option.getD_some] at h ⊢
      exact buildGroupAnchor_valid (p, v) (dget_mem hd) h

theorem ws_imp_space {c : Char} (h : wsAdvanceChar c = true) : pyIsSpace c = true := by
  simp only [wsAdvanceChar, Bool.or_eq_true, decide_eq_true_eq] at h
  rcases h with ((h | h) | h) | h <;> subst h <;> decide

theorem advanceWs_at_keep {rc : List Char} {i : Nat} (hi : i < rc.length)
    (hk : keepChar (rc.getD i ' ') = true) : advanceWs rc i = i := by
  unfold advanceWs
  rw [List.drop_eq_getElem_cons hi]
  have hni : wsAdvanceChar rc[i] = false := by
    by_cases hws : wsAdvanceChar rc[i] = true
    · exfalso
      have hsp := ws_imp_space hws
      rw [List.getD_eq_getElem _ _ hi] at hk
      unfold keepChar at hk
      rw [hsp] at hk
      simp at hk
    · simpa using hws
  simp [advanceWsAux, hni]

theorem resolveStart_of_all_fail {rc : List Char} {ga : List (String × Int)} {sec : SecD}
    (h : ∀ c ∈ getAnchorCandidates sec true, findHeadingIdxFuzzy rc c 0 = -1) :
    resolveStart rc ga sec =
      (match parentVarOf sec with
       | some p => if p ≠ "" && 0 ≤ gaVal ga p then advanceWs rc (gaVal ga p).toNat else 0
       | none => 0) := by
  have h1 : scanCands rc (getAnchorCandidates sec true) (searchFromOf ga sec) = -1 :=
    scanCands_neg (fun c hc => fuzzy_neg_mono (h c hc) _)
  have h0 : scanCands rc (getAnchorCandidates sec true) 0 = -1 :=
    scanCands_neg (fun c hc => fuzzy_neg_mono (h c hc) 0)
  simp only [resolveStart, h1, h0]
  norm_num

theorem nat_min?_spec {l : List Nat} {a : Nat} (h : l.min? = some a) :
    a ∈ l ∧ ∀ b ∈ l, a ≤ b := by
  rw [List.min?_eq_some_iff] at h
  · exact h
  · exact fun a => Nat.le_refl a
  · exact fun a b => min_choice a b
  · exact fun a b c => le_min_iff

theorem resolveStart_lt_length {rc : List Char} (gs : List Grp) (sec : SecD)
    (hrc : rc ≠ []) :
    resolveStart rc (buildGroupAnchor rc gs) sec < rc.length := by
  have hlen : 0 < rc.length := List.length_pos.mpr hrc
  simp only [resolveStart]
  by_cases hs1 : scanCands rc (getAnchorCandidates sec true)
      (searchFromOf (buildGroupAnchor rc gs) sec) < 0
  · rw [if_pos hs1]
    by_cases hs2 : scanCands rc (getAnchorCandidates sec true) 0 < 0
    · rw [if_pos hs2]
      split
      · rename_i p heq
        by_cases hcond : (decide (p ≠ "") && decide (0 ≤ gaVal (buildGroupAnchor rc gs) p)) = true
        · rw [if_pos hcond]
          simp only [Bool.and_eq_true, decide_eq_true_eq] at hcond
          have hv := gaVal_valid hcond.2
          rw [advanceWs_at_keep hv.1 hv.2]
          exact hv.1
        · rw [if_neg hcond]
          exact hlen
      · exact hlen
    · rw [if_neg hs2]
      push_neg at hs2
      obtain ⟨c, -, he, hge⟩ := scanCands_nonneg_exists hs2
      rw [he]
      exact (fuzzy_nonneg_valid hge).1
  · rw [if_neg hs1, if_neg hs1]
    push_neg at hs1
    obtain ⟨c, -, he, hge⟩ := scanCands_nonneg_exists hs1
    rw [he]
    exact (fuzzy_nonneg_valid hge).1

theorem keyLe_iff (a b : Nat × Node) :
    keyLe a b = true ↔
      (a.1 < b.1 ∨ (a.1 = b.1 ∧
        (if a.2.isGroup then 0 else 1) ≤ (if b.2.isGroup then (0 : Nat) else 1))) := by
  unfold keyLe
  simp [Bool.or_eq_true, Bool.and_eq_true, decide_eq_true_eq]

theorem keyLe_total (a b : Nat × Node) : keyLe a b = true ∨ keyLe b a = true := by
  rw [keyLe_iff, keyLe_iff]
  by_cases ha : a.2.isGroup <;> by_cases hb : b.2.isGroup <;>
    simp only [ha, hb, if_pos, if_neg, Bool.false_eq_true, if_true, if_false] <;> omega

theorem keyLe_trans {a b c : Nat × Node}
    (hab : keyLe a b = true) (hbc : keyLe b c = true) : keyLe a c = true := by
  rw [keyLe_iff] at hab hbc ⊢
  omega

theorem mem_insertNode {x y : Nat × Node} {l : List (Nat × Node)} :
    y ∈ insertNode x l ↔ y = x ∨ y ∈ l := by
  induction l with
  | nil => simp [insertNode]
  | cons z zs ih =>
      unfold insertNode
      by_cases h : keyLe x z = true
      · rw [if_pos h]
        simp only [List.mem_cons]
      · rw [if_neg h]
        simp only [List.mem_cons, ih]
        tauto

theorem insertNode_perm (x : Nat × Node) (l : List (Nat × Node)) :
    (insertNode x l).Perm (x :: l) := by
  induction l with
  | nil => simp [insertNode]
  | cons z zs ih =>
      unfold insertNode
      by_cases h : keyLe x z = true
      · rw [if_pos h]
      · rw [if_neg h]
        exact List.Perm.trans (List.Perm.cons z ih) (List.Perm.swap x z zs)

theorem sortNodes_perm (l : List (Nat × Node)) : (sortNodes l).Perm l := by
  induction l with
  | nil => simp [sortNodes]
  | cons x xs ih =>
      unfold sortNodes
      exact List.Perm.trans (insertNode_perm x (sortNodes xs)) (List.Perm.cons x ih)

theorem sorted_insertNode {x : Nat × Node} {l : List (Nat × Node)}
    (hl : List.Pairwise (fun a b => keyLe a b = true) l) :
    List.Pairwise (fun a b => keyLe a b = true) (insertNode x l) := by
  induction l with
  | nil => simp [insertNode]
  | cons z zs ih =>
      rcases List.pairwise_cons.mp hl with ⟨hz, hzs⟩
      unfold insertNode
      by_cases h : keyLe x z = true
      · rw [if_pos h]
        refine List.pairwise_cons.mpr ⟨?_, hl⟩
        intro y hy
        rcases List.mem_cons.mp hy with rfl | hy2
        · exact h
        · exact keyLe_trans h (hz y hy2)
      · rw [if_neg h]
        refine List.pairwise_cons.mpr ⟨?_, ih hzs⟩
        intro y hy
        rcases mem_insertNode.mp hy with rfl | hy2
        · rcases keyLe_total y z with hc | hc
          · exact absurd hc h
          · exact hc
        · exact hz y hy2

theorem sortNodes_sorted (l : List (Nat × Node)) :
    List.Pairwise (fun a b => keyLe a b = true) (sortNodes l) := by
  induction l with
  | nil => simp [sortNodes]
  | cons x xs ih =>
      unfold sortNodes
      exact sorted_insertNode ih

theorem dedupGo_subset {seen : List (String × Bool)} {ns : List Node} {m : Node}
    (h : m ∈ dedupGo seen ns) : m ∈ ns := by
  induction ns generalizing seen with
  | nil => simp [dedupGo] at h
  | cons n rest ih =>
      unfold dedupGo at h
      by_cases hk : nodeKey n ∈ seen
      · rw [if_pos hk] at h
        exact List.mem_cons_of_mem n (ih h)
      · rw [if_neg hk] at h
        rcases List.mem_cons.mp h with rfl | h2
        · exact List.mem_cons_self _ _
        · exact List.mem_cons_of_mem n (ih h2)

theorem dedupGo_not_seen {seen : List (String × Bool)} {ns : List Node} {m : Node}
    (h : m ∈ dedupGo seen ns) : nodeKey m ∉ seen := by
  induction ns generalizing seen with
  | nil => simp [dedupGo] at h
  | cons n rest ih =>
      unfold dedupGo at h
      by_cases hk : nodeKey n ∈ seen
      · rw [if_pos hk] at h
        exact ih h
      · rw [if_neg hk] at h
        rcases List.mem_cons.mp h with rfl | h2
        · exact hk
        · have hni := ih h2
          intro hmem
          exact hni (List.mem_cons_of_mem _ hmem)

theorem dedupGo_mem_key {seen : List (String × Bool)} {ns : List Node} {n : Node}
    (hn : n ∈ ns) (hk : nodeKey n ∉ seen) :
    ∃ m ∈ dedupGo seen ns, nodeKey m = nodeKey n := by
  induction ns generalizing seen with
  | nil => simp at hn
  | cons x rest ih =>
      unfold dedupGo
      by_cases hx : nodeKey x ∈ seen
      · rw [if_pos hx]
        rcases List.mem_cons.mp hn with rfl | h2
        · exact absurd hx hk
        · exact ih h2 hk
      · rw [if_neg hx]
        rcases List.mem_cons.mp hn with rfl | h2
        · exact ⟨_, List.mem_cons_self _ _, rfl⟩
        · by_cases hkey : nodeKey n = nodeKey x
          · exact ⟨x, List.mem_cons_self x (dedupGo (nodeKey x :: seen) rest), hkey.symm⟩
          · have hk2 : nodeKey n ∉ nodeKey x :: seen := by
              intro hmm
              rcases List.mem_cons.mp hmm with he | hs
              · exact hkey he
              · exact hk hs
            obtain ⟨m, hm, hme⟩ := ih h2 hk2
            exact ⟨m, List.mem_cons_of_mem x hm, hme⟩

theorem dedupGo_pairwise {seen : List (String × Bool)} {ns : List Node} :
    List.Pairwise (fun a b => nodeKey a ≠ nodeKey b) (dedupGo seen ns) := by
  induction ns generalizing seen with
  | nil => simp [dedupGo]
  | cons n rest ih =>
      unfold dedupGo
      by_cases hk : nodeKey n ∈ seen
      · rw [if_pos hk]
        exact ih
      · rw [if_neg hk]
        refine List.pairwise_cons.mpr ⟨?_, ih⟩
        intro m hm
        have hni := dedupGo_not_seen hm
        intro he
        exact hni (by rw [← he]; exact List.mem_cons_self _ _)

theorem dedupGo_first_occurrence {seen : List (String × Bool)} {ns : List Node}
    {m : Node} (h : m ∈ dedupGo seen ns) :
    ∃ pre post, ns = pre ++ m :: post ∧
      ∀ x ∈ pre, nodeKey x ≠ nodeKey m ∨ nodeKey x ∈ seen := by
  induction ns generalizing seen with
  | nil => simp [dedupGo] at h
  | cons n rest ih =>
      unfold dedupGo at h
      by_cases hk : nodeKey n ∈ seen
      · rw [if_pos hk] at h
        obtain ⟨pre, post, he, hpre⟩ := ih h
        refine ⟨n :: pre, post, by rw [List.cons_append, he], ?_⟩
        intro x hx
        rcases List.mem_cons.mp hx with rfl | hx2
        · right; exact hk
        · exact hpre x hx2
      · rw [if_neg hk] at h
        rcases List.mem_cons.mp h with rfl | h2
        · exact ⟨[], rest, rfl, by simp⟩
        · obtain ⟨pre, post, he, hpre⟩ := ih h2
          have hmk : nodeKey m ∉ nodeKey n :: seen := dedupGo_not_seen h2
          refine ⟨n :: pre, post, by rw [List.cons_append, he], ?_⟩
          intro x hx
          rcases List.mem_cons.mp hx with rfl | hx2
          · left
            intro hcontra
            exact hmk (by rw [← hcontra]; exact List.mem_cons_self _ _)
          · rcases hpre x hx2 with h1 | h1
            · left; exact h1
            · rcases List.mem_cons.mp h1 with he2 | hs
              · left
                intro hcontra
                exact hmk (by rw [hcontra.symm.trans he2]; exact List.mem_cons_self _ _)
              · right; exact hs

theorem length_filter_add_not {α : Type} (p : α → Bool) (l : List α) :
    (l.filter p).length + (l.filter (fun a => !p a)).length = l.length := by
  induction l with
  | nil => simp
  | cons x xs ih =>
      by_cases h : p x = true
      · rw [List.filter_cons_of_pos h, List.filter_cons_of_neg (by simp [h])]
        simp only [List.length_cons]
        omega
      · rw [List.filter_cons_of_neg h, List.filter_cons_of_pos (by simp [h])]
        simp only [List.length_cons]
        omega

theorem normalizeNode_id {i : Nat} {n : Node} (h1 : n.id ≠ "") (h2 : n.title ≠ "") :
    normalizeNode i n = n := by
  unfold normalizeNode
  rw [if_neg h1, if_neg h2]

theorem normalizeNodes_eq_self {ns : List Node}
    (h : ∀ n ∈ ns, n.id ≠ "" ∧ n.title ≠ "") : normalizeNodes ns = ns := by
  unfold normalizeNodes
  have hgen : ∀ i, (List.enumFrom i ns).map (fun p => normalizeNode p.1 p.2) = ns := by
    induction ns with
    | nil => intro i; rfl
    | cons n rest ih =>
        intro i
        rw [List.enumFrom_cons, List.map_cons]
        have hn := h n (List.mem_cons_self n rest)
        rw [normalizeNode_id hn.1 hn.2]
        congr 1
        exact ih (fun x hx => h x (List.mem_cons_of_mem n hx)) (i + 1)
    
  exact hgen 0

theorem qualityGate_ok (raw : String) (ns : List Node) :
    (qualityGate raw ns).ok = true := by
  simp only [qualityGate]
  split_ifs <;> rfl

theorem buildSpan_mem_splitSpans {rc : List Char} {ga : List (String × Int)}
    {sections : List SecD} {sec : SecD} {sp : Span}
    (hsec : sec ∈ sections) (hsp : buildSpan rc ga sec = some sp) :
    sp ∈ splitSpans rc ga sections := by
  unfold splitSpans
  exact List.mem_filterMap.mpr ⟨sec, hsec, hsp⟩

theorem span_mem_allNodes {rc : List Char} {sch : Schema} {sp : Span}
    (hsp : sp ∈ splitSpans rc (buildGroupAnchor rc sch.groups) sch.sections) :
    (sp.start_idx + 1, leafNode sp) ∈ allNodesOf rc sch := by
  simp only [allNodesOf]
  apply List.mem_append.mpr
  right
  exact List.mem_map.mpr ⟨sp, hsp, rfl⟩

theorem mem_split_of_key {raw : String} {sch : Schema} {pn : Nat × Node}
    (hraw : strip raw ≠ "") (hpn : pn ∈ allNodesOf raw.data sch) :
    ∃ m ∈ split_resume_by_schema raw sch, nodeKey m = nodeKey pn.2 := by
  unfold split_resume_by_schema
  rw [if_neg hraw]
  unfold dedupNodes
  have hsorted : pn ∈ sortNodes (allNodesOf raw.data sch) :=
    (sortNodes_perm (allNodesOf raw.data sch)).mem_iff.mpr hpn
  have hmap : pn.2 ∈ (sortNodes (allNodesOf raw.data sch)).map (fun x => x.2) :=
    List.mem_map.mpr ⟨pn, hsorted, rfl⟩
  exact dedupGo_mem_key hmap (by simp)

theorem strip_ne_iff {s : String} : strip s ≠ "" ↔ pyStrip s.data ≠ [] := by
  unfold strip
  constructor
  · intro h hx
    apply h
    rw [hx]
  · intro h hx
    apply h
    have hd := congrArg String.data hx
    simpa using hd

theorem data_ne_nil_of_strip {s : String} (h : strip s ≠ "") : s.data ≠ [] := by
  intro hx
  apply strip_ne_iff.mp h
  rw [hx]
  rfl

theorem buildSpan_eq_some (rc : List Char) (ga : List (String × Int)) {sec : SecD}
    (hsid : strip sec.id ≠ "") (hleaf : sec.isGroup = false) :
    buildSpan rc ga sec = some
      { sec_id := strip sec.id
        title := if strip (sec.title.getD sec.id) = "" then strip sec.id
                 else strip (sec.title.getD sec.id)
        parentId := parentVarOf sec
        start_idx := resolveStart rc ga sec
        end_idx := resolveEnd rc ga sec (resolveStart rc ga sec)
        text := ⟨buildLeafText
          ((rc.drop (resolveStart rc ga sec)).take
            (resolveEnd rc ga sec (resolveStart rc ga sec) - resolveStart rc ga sec))
          (if strip (sec.title.getD sec.id) = "" then strip sec.id
           else strip (sec.title.getD sec.id))⟩ } := by
  simp only [buildSpan, if_neg hsid, hleaf, Bool.false_eq_true, if_false]

theorem buildSpan_some_elim {rc : List Char} {ga : List (String × Int)}
    {sec : SecD} {sp : Span} (hsp : buildSpan rc ga sec = some sp) :
    strip sec.id ≠ "" ∧ sec.isGroup = false ∧
    sp = { sec_id := strip sec.id
           title := if strip (sec.title.getD sec.id) = "" then strip sec.id
                    else strip (sec.title.getD sec.id)
           parentId := parentVarOf sec
           start_idx := resolveStart rc ga sec
           end_idx := resolveEnd rc ga sec (resolveStart rc ga sec)
           text := ⟨buildLeafText
             ((rc.drop (resolveStart rc ga sec)).take
               (resolveEnd rc ga sec (resolveStart rc ga sec) - resolveStart rc ga sec))
             (if strip (sec.title.getD sec.id) = "" then strip sec.id
              else strip (sec.title.getD sec.id))⟩ } := by
  by_cases h1 : strip sec.id = ""
  · exfalso
    simp [buildSpan, h1] at hsp
  · by_cases h2 : sec.isGroup = true
    · exfalso
      simp [buildSpan, h1, h2] at hsp
    · have h2f : sec.isGroup = false := by simpa using h2
      rw [buildSpan_eq_some rc ga h1 h2f] at hsp
      have heq := (Option.some.injEq _ _).mp hsp
      exact ⟨h1, h2f, heq.symm⟩

theorem resolveStart_first_hit {rc : List Char} {ga : List (String × Int)} {sec : SecD}
    {pre post : List String} {c : String}
    (hc : getAnchorCandidates sec true = pre ++ c :: post)
    (hpre : ∀ x ∈ pre, findHeadingIdxFuzzy rc x (searchFromOf ga sec) = -1)
    (hhit : 0 ≤ findHeadingIdxFuzzy rc c (searchFromOf ga sec)) :
    resolveStart rc ga sec = (findHeadingIdxFuzzy rc c (searchFromOf ga sec)).toNat := by
  have h1 : scanCands rc (getAnchorCandidates sec true) (searchFromOf ga sec) =
      findHeadingIdxFuzzy rc c (searchFromOf ga sec) := by
    rw [hc]
    exact scanCands_first pre post hpre hhit
  have hne : ¬ findHeadingIdxFuzzy rc c (searchFromOf ga sec) < 0 := by omega
  simp only [resolveStart, h1, if_neg hne]

theorem resolveEnd_neg_scan {rc : List Char} (ga : List (String × Int)) {sec : SecD}
    {s : Nat} (hscan : scanCands rc (getAnchorCandidates sec false) (s + 1) < 0)
    (hs : s < rc.length) :
    resolveEnd rc ga sec s =
      (if s < nextGroupPos ga s rc.length then nextGroupPos ga s rc.length
       else rc.length) := by
  simp only [resolveEnd, if_pos hscan]
  by_cases h1 : s < nextGroupPos ga s rc.length
  · simp only [if_pos h1, if_neg (show ¬ nextGroupPos ga s rc.length ≤ s by omega)]
  · simp only [if_neg h1, if_neg (show ¬ rc.length ≤ s by omega)]

theorem resolveEnd_pos_scan {rc : List Char} (ga : List (String × Int)) {sec : SecD}
    {s : Nat} (hscan : 0 ≤ scanCands rc (getAnchorCandidates sec false) (s + 1)) :
    resolveEnd rc ga sec s =
      (if (scanCands rc (getAnchorCandidates sec false) (s + 1)).toNat ≤ s
       then rc.length
       else (scanCands rc (getAnchorCandidates sec false) (s + 1)).toNat) := by
  simp only [resolveEnd,
    if_neg (show ¬ scanCands rc (getAnchorCandidates sec false) (s + 1) < 0 by omega)]

theorem nextGroupPos_spec (ga : List (String × Int)) (s len : Nat) :
    ((∃ v ∈ gaValues ga, (s : Int) < v ∧ v.toNat = nextGroupPos ga s len ∧
        ∀ w ∈ gaValues ga, (s : Int) < w → v ≤ w) ∧ s < nextGroupPos ga s len) ∨
    ((∀ v ∈ gaValues ga, ¬ (s : Int) < v) ∧ nextGroupPos ga s len = len) := by
  cases hmin : ((gaValues ga).filterMap
      (fun v => if (s : Int) < v then some v.toNat else none)).min? with
  | none =>
      right
      have hval : nextGroupPos ga s len = len := by
        unfold nextGroupPos
        rw [hmin]
        rfl
      refine ⟨?_, hval⟩
      intro v hv hsv
      have hmem2 : v.toNat ∈ (gaValues ga).filterMap
          (fun v => if (s : Int) < v then some v.toNat else none) :=
        List.mem_filterMap.mpr ⟨v, hv, if_pos hsv⟩
      rw [List.min?_eq_none_iff.mp hmin] at hmem2
      simp at hmem2
  | some m =>
      left
      obtain ⟨hmem, hle⟩ := nat_min?_spec hmin
      rw [List.mem_filterMap] at hmem
      obtain ⟨v, hv, hfv⟩ := hmem
      have hsv : (s : Int) < v := by
        by_cases hcase : (s : Int) < v
        · exact hcase
        · rw [if_neg hcase] at hfv
          exact Option.noConfusion hfv
      have hvm : v.toNat = m := by
        rw [if_pos hsv] at hfv
        exact (Option.some.injEq _ _).mp hfv
      have hval : nextGroupPos ga s len = m := by
        unfold nextGroupPos
        rw [hmin]
        rfl
      refine ⟨⟨v, hv, hsv, by rw [hvm, hval], ?_⟩, by omega⟩
      intro w hw hsw
      have hwmem : w.toNat ∈ (gaValues ga).filterMap
          (fun v => if (s : Int) < v then some v.toNat else none) :=
        List.mem_filterMap.mpr ⟨w, hw, if_pos hsw⟩
      have hmle := hle w.toNat hwmem
      omega

theorem resolveEnd_spec (rc : List Char) (ga : List (String × Int)) (sec : SecD) (s : Nat)
    (hs : s < rc.length) :
    (0 ≤ scanCands rc (getAnchorCandidates sec false) (s + 1) →
      resolveEnd rc ga sec s =
        (if (scanCands rc (getAnchorCandidates sec false) (s + 1)).toNat ≤ s
         then rc.length
         else (scanCands rc (getAnchorCandidates sec false) (s + 1)).toNat)) ∧
    (scanCands rc (getAnchorCandidates sec false) (s + 1) < 0 →
      ((∃ v ∈ gaValues ga, (s : Int) < v ∧ v.toNat = resolveEnd rc ga sec s ∧
          ∀ w ∈ gaValues ga, (s : Int) < w → v ≤ w) ∨
       ((∀ v ∈ gaValues ga, ¬ (s : Int) < v) ∧ resolveEnd rc ga sec s = rc.length))) ∧
    s < resolveEnd rc ga sec s := by
  by_cases hscan : scanCands rc (getAnchorCandidates sec false) (s + 1) < 0
  · have hre := resolveEnd_neg_scan ga hscan hs
    rcases nextGroupPos_spec ga s rc.length with ⟨⟨v, hv, hsv, hvm, hmin⟩, hlt⟩ | ⟨hnone, hval⟩
    · have hre2 : resolveEnd rc ga sec s = nextGroupPos ga s rc.length := by
        rw [hre, if_pos hlt]
      exact ⟨fun h0 => absurd h0 (by omega),
        fun _ => Or.inl ⟨v, hv, hsv, by rw [hvm, hre2], hmin⟩, by omega⟩
    · have hre2 : resolveEnd rc ga sec s = rc.length := by
        rw [hre, hval, if_pos hs]
      exact ⟨fun h0 => absurd h0 (by omega), fun _ => Or.inr ⟨hnone, hre2⟩, by omega⟩
  · push_neg at hscan
    have hre := resolveEnd_pos_scan ga hscan
    refine ⟨fun _ => hre, fun hneg => absurd hneg (by omega), ?_⟩
    rw [hre]
    by_cases hc : (scanCands rc (getAnchorCandidates sec false) (s + 1)).toNat ≤ s
    · rw [if_pos hc]
      exact hs
    · rw [if_neg hc]
      omega

theorem parse_blank (raw : String) (os : Option Schema) (h : strip raw = "") :
    parse raw os = ⟨false, "error", [], some "parse failed: empty text"⟩ := by
  unfold parse
  rw [if_pos h]

theorem parse_none_eq (raw : String) (hraw : strip raw ≠ "") :
    parse raw none = ⟨true, "fallback_unknown", [unknownNode raw], none⟩ := by
  unfold parse
  rw [if_neg hraw]
  have hn : normalizeNodes [unknownNode raw] = [unknownNode raw] := by
    apply normalizeNodes_eq_self
    intro n hn
    rw [List.mem_singleton] at hn
    subst hn
    constructor
    · simp only [unknownNode]
      decide
    · simp only [unknownNode]
      decide
  show (⟨true, "fallback_unknown", normalizeNodes [unknownNode raw], none⟩ : ParseResp) = _
  rw [hn]

theorem parse_anchor_fb (raw : String) (sch : Schema) (hraw : strip raw ≠ "")
    (h : (checkSchemaAnchorMatch sch raw).shouldFallback = true) :
    parse raw (some sch) = fallbackResp raw := by
  unfold parse
  rw [if_neg hraw]
  show (if (checkSchemaAnchorMatch sch raw).shouldFallback = true then fallbackResp raw
        else if (split_resume_by_schema raw sch).isEmpty then
          ⟨false, "error", [], some "schema parsing produced 0 sections"⟩
        else qualityGate raw (normalizeNodes (split_resume_by_schema raw sch))) =
      fallbackResp raw
  rw [if_pos h]

theorem parse_some_unfold (raw : String) (sch : Schema) (hraw : strip raw ≠ "")
    (hanch : (checkSchemaAnchorMatch sch raw).shouldFallback = false) :
    parse raw (some sch) =
      (if (split_resume_by_schema raw sch).isEmpty then
        ⟨false, "error", [], some "schema parsing produced 0 sections"⟩
      else qualityGate raw (normalizeNodes (split_resume_by_schema raw sch))) := by
  unfold parse
  rw [if_neg hraw]
  show (if (checkSchemaAnchorMatch sch raw).shouldFallback = true then fallbackResp raw
        else if (split_resume_by_schema raw sch).isEmpty then
          ⟨false, "error", [], some "schema parsing produced 0 sections"⟩
        else qualityGate raw (normalizeNodes (split_resume_by_schema raw sch))) = _
  rw [hanch]
  simp

theorem parse_zero_sections (raw : String) (sch : Schema) (hraw : strip raw ≠ "")
    (hanch : (checkSchemaAnchorMatch sch raw).shouldFallback = false)
    (hempty : split_resume_by_schema raw sch = []) :
    parse raw (some sch) =
      ⟨false, "error", [], some "schema parsing produced 0 sections"⟩ := by
  rw [parse_some_unfold raw sch hraw hanch, hempty]
  rfl

theorem parse_gate (raw : String) (sch : Schema) (hraw : strip raw ≠ "")
    (hanch : (checkSchemaAnchorMatch sch raw).shouldFallback = false)
    (hne : split_resume_by_schema raw sch ≠ []) :
    parse raw (some sch) =
      qualityGate raw (normalizeNodes (split_resume_by_schema raw sch)) := by
  rw [parse_some_unfold raw sch hraw hanch]
  rw [if_neg (fun hcontra => hne (List.isEmpty_iff.mp hcontra))]

/-- The disjunction of the post-split quality-gate failure conditions in
`parse`: only groups and no leaves, a low non-empty-leaf share, too little
total leaf text, or no sections at all. -/
def gateFails (ns : List Node) : Prop :=
  (0 < (ns.filter (fun s => s.isGroup)).length ∧
     (ns.filter (fun s => !s.isGroup)).length = 0) ∨
  (0 < (ns.filter (fun s => !s.isGroup)).length ∧
    (10 * (ns.filter (fun s => !s.isGroup && decide (strip s.text ≠ ""))).length <
       3 * (ns.filter (fun s => !s.isGroup)).length ∨
     ((ns.filter (fun s => !s.isGroup)).map (fun s => (strip s.text).length)).sum < 200)) ∨
  ((ns.filter (fun s => s.isGroup)).length = 0 ∧
     (ns.filter (fun s => !s.isGroup)).length = 0)

theorem qualityGate_fail (raw : String) (ns : List Node) (h : gateFails ns) :
    qualityGate raw ns = fallbackResp raw := by
  simp only [qualityGate]
  split_ifs with h1 h2 h3 h4 <;> try rfl
  exfalso
  rcases h with ⟨hg, hl⟩ | ⟨hl, hcond⟩ | ⟨hg, hl⟩
  · omega
  · rcases hcond with hc | hc <;> omega
  · omega

theorem qualityGate_pass (raw : String) (ns : List Node) (h : ¬ gateFails ns) :
    qualityGate raw ns = ⟨true, "schema", ns, none⟩ := by
  simp only [qualityGate]
  split_ifs with h1 h2 h3 h4
  · exact absurd (Or.inl h1) h
  · exact absurd (Or.inr (Or.inl ⟨h2, Or.inl h3⟩)) h
  · exact absurd (Or.inr (Or.inl ⟨h2, Or.inr h4⟩)) h
  · rfl
  · exfalso
    apply h
    right
    right
    constructor <;> omega

theorem qualityGate_not_fallback (raw : String) (ns : List Node) (h : ¬ gateFails ns) :
    qualityGate raw ns ≠ fallbackResp raw := by
  rw [qualityGate_pass raw ns h]
  intro hcontra
  have hm := congrArg ParseResp.mode hcontra
  simp only [fallbackResp] at hm
  exact absurd hm (by decide)

theorem buildLeafText_title_irrel (slice : List Char) (t1 t2 : String) :
    buildLeafText slice t1 = buildLeafText slice t2 := rfl

theorem buildLeafText_no_heading (slice : List Char) (t : String)
    (h : looksLikeHeading (pyStrip ((pySplitlines (pyStrip slice)).headD [])) t = false) :
    buildLeafText slice t = pyStrip slice := by
  simp only [buildLeafText, h, Bool.and_false, Bool.false_eq_true, if_false]
  split_ifs <;> rfl

theorem looksLikeHeading_ne_nil {l : List Char} {t : String}
    (h : looksLikeHeading l t = true) : l ≠ [] := by
  intro hx
  rw [hx] at h
  simp [looksLikeHeading, pyStrip] at h

theorem buildLeafText_heading (slice : List Char) (t : String)
    (hne : pyStrip slice ≠ [])
    (h : looksLikeHeading (pyStrip ((pySplitlines (pyStrip slice)).headD [])) t = true) :
    buildLeafText slice t =
      pyStrip (joinLines (((pySplitlines (pyStrip slice)).tail).dropWhile
        (fun l => (pyStrip l).isEmpty))) := by
  have hfl : (pyStrip ((pySplitlines (pyStrip slice)).headD [])).isEmpty = false :=
    List.isEmpty_eq_false.mpr (looksLikeHeading_ne_nil h)
  simp only [buildLeafText,
    if_neg (show ¬ (pyStrip slice).isEmpty = true from fun hx => hne (List.isEmpty_iff.mp hx)),
    h, Bool.and_true, hfl, Bool.not_false, eq_self_iff_true, if_true]

theorem split_leaf_from_span {raw : String} {sch : Schema} {n : Node}
    (hn : n ∈ split_resume_by_schema raw sch) (hleaf : n.isGroup = false) :
    ∃ sec ∈ sch.sections, ∃ sp,
      buildSpan raw.data (buildGroupAnchor raw.data sch.groups) sec = some sp ∧
      n = leafNode sp := by
  unfold split_resume_by_schema at hn
  by_cases hraw : strip raw = ""
  · rw [if_pos hraw] at hn
    simp at hn
  · rw [if_neg hraw] at hn
    unfold dedupNodes at hn
    have hmem := dedupGo_subset hn
    rw [List.mem_map] at hmem
    obtain ⟨pn, hpn, hpe⟩ := hmem
    have hpn2 : pn ∈ allNodesOf raw.data sch :=
      (sortNodes_perm (allNodesOf raw.data sch)).mem_iff.mp hpn
    simp only [allNodesOf] at hpn2
    rcases List.mem_append.mp hpn2 with hg | hl
    · exfalso
      rw [List.mem_filterMap] at hg
      obtain ⟨g, hgmem, hgeq⟩ := hg
      have hgrp : pn.2.isGroup = true := by
        by_cases hgid : strip g.id = ""
        · exfalso
          simp [mkGroupNode, hgid] at hgeq
        · simp only [mkGroupNode, if_neg hgid] at hgeq
          have heq := (Option.some.injEq _ _).mp hgeq
          rw [← heq]
      rw [hpe, hleaf] at hgrp
      exact Bool.noConfusion hgrp
    · rw [List.mem_map] at hl
      obtain ⟨sp, hsp, hspe⟩ := hl
      unfold splitSpans at hsp
      rw [List.mem_filterMap] at hsp
      obtain ⟨sec, hsec, hbs⟩ := hsp
      refine ⟨sec, hsec, sp, hbs, ?_⟩
      rw [← hpe, ← hspe]

/-!
Claim theorems.  Each claim of the specification is settled by one theorem
below (with a witness instantiation at a concrete input when the theorem
has hypotheses, and a counterexample theorem where the claim fails).
-/

/-- Claim C1: a leaf's start anchor candidates are tried strictly in the
order supplied by the schema, and the first candidate that matches at or
after the search offset wins — the resolved start is that candidate's
occurrence, not the earliest occurrence across candidates. -/
theorem c1_start_anchor_order (rc : List Char) (ga : List (String × Int)) (sec : SecD)
    (pre post : List String) (c : String)
    (hsid : strip sec.id ≠ "") (hleaf : sec.isGroup = false)
    (hc : getAnchorCandidates sec true = pre ++ c :: post)
    (hpre : ∀ x ∈ pre, findHeadingIdxFuzzy rc x (searchFromOf ga sec) = -1)
    (hhit : 0 ≤ findHeadingIdxFuzzy rc c (searchFromOf ga sec)) :
    ∃ sp, buildSpan rc ga sec = some sp ∧
      (sp.start_idx : Int) = findHeadingIdxFuzzy rc c (searchFromOf ga sec) := by
  refine ⟨_, buildSpan_eq_some rc ga hsid hleaf, ?_⟩
  show ((resolveStart rc ga sec : Nat) : Int) = _
  rw [resolveStart_first_hit hc hpre hhit]
  omega

def rawC1 : String := "zz ALPHA qq BETA rr"

def secC1 : SecD :=
  { id := "s1", title := some "Sec", parentId := none, isGroup := false,
    anchors := some (FieldVal.vlist ["BETA", "ALPHA"], FieldVal.vnone),
    start := FieldVal.vnone, end_ := FieldVal.vnone, anchor := FieldVal.vnone,
    pattern := FieldVal.vnone, match_ := FieldVal.vnone }

/-- Witness for C1: with candidates `["BETA", "ALPHA"]` and `"ALPHA"`
occurring earlier (offset 3) than `"BETA"` (offset 12), the resolved start
is `"BETA"`'s occurrence. -/
theorem c1_start_anchor_order_witness :
    findHeadingIdxFuzzy rawC1.data ("ALPHA") (searchFromOf [] secC1) = 3 ∧
    findHeadingIdxFuzzy rawC1.data ("BETA") (searchFromOf [] secC1) = 12 ∧
    (∃ sp, buildSpan rawC1.data [] secC1 = some sp ∧
      (sp.start_idx : Int) = findHeadingIdxFuzzy rawC1.data ("BETA") (searchFromOf [] secC1)) :=
  ⟨by decide, by decide,
   c1_start_anchor_order rawC1.data [] secC1 [] ["ALPHA"] ("BETA")
     (by decide) (by decide) (by decide) (by decide) (by decide)⟩

/-- Claim C2: a leaf section descriptor whose own start anchor candidates
match nowhere still produces a span — its start is the resolved parent
anchor advanced past immediately following whitespace (never chopping the
anchor's first character) when the parent is resolvable, else 0 — and a
node with the leaf's id always appears in the splitter output. -/
theorem c2_unmatched_leaf_not_dropped (raw : String) (sch : Schema) (sec : SecD)
    (hraw : strip raw ≠ "")
    (hsec : sec ∈ sch.sections) (hsid : strip sec.id ≠ "") (hleaf : sec.isGroup = false)
    (hmiss : ∀ c ∈ getAnchorCandidates sec true,
      findHeadingIdxFuzzy raw.data c 0 = -1) :
    ∃ sp, buildSpan raw.data (buildGroupAnchor raw.data sch.groups) sec = some sp ∧
      sp.sec_id = strip sec.id ∧
      sp.start_idx =
        (match parentVarOf sec with
         | some p =>
             if p ≠ "" && 0 ≤ gaVal (buildGroupAnchor raw.data sch.groups) p
             then advanceWs raw.data (gaVal (buildGroupAnchor raw.data sch.groups) p).toNat
             else 0
         | none => 0) ∧
      (∀ p, parentVarOf sec = some p → p ≠ "" →
        0 ≤ gaVal (buildGroupAnchor raw.data sch.groups) p →
        sp.start_idx = (gaVal (buildGroupAnchor raw.data sch.groups) p).toNat) ∧
      (∃ n ∈ split_resume_by_schema raw sch, n.id = strip sec.id ∧ n.isGroup = false) := by
  have hbs := buildSpan_eq_some raw.data (buildGroupAnchor raw.data sch.groups) hsid hleaf
  refine ⟨_, hbs, rfl, ?_, ?_, ?_⟩
  · show resolveStart raw.data (buildGroupAnchor raw.data sch.groups) sec = _
    exact resolveStart_of_all_fail hmiss
  · intro p hp hpne hpge
    show resolveStart raw.data (buildGroupAnchor raw.data sch.groups) sec = _
    rw [resolveStart_of_all_fail hmiss]
    simp only [hp]
    rw [if_pos (by simp [hpne, hpge] :
      (p ≠ "" && decide (0 ≤ gaVal (buildGroupAnchor raw.data sch.groups) p)) = true)]
    have hv := gaVal_valid hpge
    exact advanceWs_at_keep hv.1 hv.2
  · have hspm := buildSpan_mem_splitSpans hsec hbs
    have hall := span_mem_allNodes hspm
    obtain ⟨m, hm, hkey⟩ := mem_split_of_key hraw hall
    refine ⟨m, hm, ?_, ?_⟩
    · have h1 := congrArg Prod.fst hkey
      simpa [nodeKey, leafNode] using h1
    · have h2 := congrArg Prod.snd hkey
      simpa [nodeKey, leafNode] using h2

def rawC2 : String := "EXPERIENCE\nsome stuff here"

def grpC2 : Grp := { id := "g1", title := some "EXPERIENCE" }

def secC2 : SecD :=
  { id := "l1", title := some "Leaf", parentId := some "g1", isGroup := false,
    anchors := some (FieldVal.vlist ["MISSING HEADING"], FieldVal.vnone),
    start := FieldVal.vnone, end_ := FieldVal.vnone, anchor := FieldVal.vnone,
    pattern := FieldVal.vnone, match_ := FieldVal.vnone }

def schC2 : Schema := { groups := [grpC2], sections := [secC2] }

/-- Witness for C2: the leaf's only anchor is absent, its parent group is
resolved, and the leaf still appears in the splitter output. -/
theorem c2_unmatched_leaf_not_dropped_witness :
    (∀ c ∈ getAnchorCandidates secC2 true,
       findHeadingIdxFuzzy rawC2.data c 0 = -1) ∧
    (∃ sp, buildSpan rawC2.data (buildGroupAnchor rawC2.data schC2.groups) secC2 = some sp ∧
      sp.sec_id = strip secC2.id ∧
      sp.start_idx =
        (match parentVarOf secC2 with
         | some p =>
             if p ≠ "" && 0 ≤ gaVal (buildGroupAnchor rawC2.data schC2.groups) p
             then advanceWs rawC2.data (gaVal (buildGroupAnchor rawC2.data schC2.groups) p).toNat
             else 0
         | none => 0) ∧
      (∀ p, parentVarOf secC2 = some p → p ≠ "" →
        0 ≤ gaVal (buildGroupAnchor rawC2.data schC2.groups) p →
        sp.start_idx = (gaVal (buildGroupAnchor rawC2.data schC2.groups) p).toNat) ∧
      (∃ n ∈ split_resume_by_schema rawC2 schC2, n.id = strip secC2.id ∧ n.isGroup = false)) :=
  ⟨by decide,
   c2_unmatched_leaf_not_dropped rawC2 schC2 secC2 (by decide) (by decide) (by decide)
     (by decide) (by decide)⟩

/-- Claim C10: schema entries with a blank (missing, empty or
whitespace-only) id are silently skipped by `split_resume_by_schema`:
deleting a blank-id section entry, or a blank-id group entry, from the
schema leaves the splitter output unchanged — even when its anchors match
the document. -/
theorem c10_blank_id_skipped (raw : String) (b : SecD) (gb : Grp)
    (hb : strip b.id = "") (hgb : strip gb.id = "") :
    (∀ (gs : List Grp) (ss1 ss2 : List SecD),
       split_resume_by_schema raw ⟨gs, ss1 ++ b :: ss2⟩ =
       split_resume_by_schema raw ⟨gs, ss1 ++ ss2⟩) ∧
    (∀ (gs1 gs2 : List Grp) (ss : List SecD),
       split_resume_by_schema raw ⟨gs1 ++ gb :: gs2, ss⟩ =
       split_resume_by_schema raw ⟨gs1 ++ gs2, ss⟩) := by
  have hbnone : ∀ (rc : List Char) (ga : List (String × Int)), buildSpan rc ga b = none := by
    intro rc ga
    simp [buildSpan, hb]
  constructor
  · intro gs ss1 ss2
    unfold split_resume_by_schema
    by_cases hraw : strip raw = ""
    · rw [if_pos hraw, if_pos hraw]
    · rw [if_neg hraw, if_neg hraw]
      have hall : allNodesOf raw.data ⟨gs, ss1 ++ b :: ss2⟩ =
          allNodesOf raw.data ⟨gs, ss1 ++ ss2⟩ := by
        simp only [allNodesOf]
        have hspans : splitSpans raw.data (buildGroupAnchor raw.data gs) (ss1 ++ b :: ss2) =
            splitSpans raw.data (buildGroupAnchor raw.data gs) (ss1 ++ ss2) := by
          unfold splitSpans
          rw [List.filterMap_append, List.filterMap_append,
            List.filterMap_cons_none (hbnone raw.data (buildGroupAnchor raw.data gs))]
        rw [hspans]
      rw [hall]
  · intro gs1 gs2 ss
    have hga : buildGroupAnchor raw.data (gs1 ++ gb :: gs2) =
        buildGroupAnchor raw.data (gs1 ++ gs2) := by
      unfold buildGroupAnchor
      rw [List.foldl_append, List.foldl_cons, List.foldl_append]
      congr 1
      simp [gaStep, hgb]
    have hgbnone : ∀ (ga : List (String × Int)) (spans : List Span),
        mkGroupNode ga spans gb = none := by
      intro ga spans
      simp [mkGroupNode, hgb]
    unfold split_resume_by_schema
    by_cases hraw : strip raw = ""
    · rw [if_pos hraw, if_pos hraw]
    · rw [if_neg hraw, if_neg hraw]
      have hall : allNodesOf raw.data ⟨gs1 ++ gb :: gs2, ss⟩ =
          allNodesOf raw.data ⟨gs1 ++ gs2, ss⟩ := by
        simp only [allNodesOf, hga]
        rw [List.filterMap_append, List.filterMap_append,
          List.filterMap_cons_none (hgbnone _ _)]
      rw [hall]

def rawC10 : String := "SKILLS\npython and sql tools"

def blankSecC10 : SecD :=
  { id := "  ", title := some "Blank", parentId := none, isGroup := false,
    anchors := none, start := FieldVal.vstr ("SKILLS"), end_ := FieldVal.vnone,
    anchor := FieldVal.vnone, pattern := FieldVal.vnone, match_ := FieldVal.vnone }

def blankGrpC10 : Grp := { id := " ", title := some "SKILLS" }

def keptSecC10 : SecD :=
  { id := "k", title := some "Kept", parentId := none, isGroup := false,
    anchors := none, start := FieldVal.vstr ("SKILLS"), end_ := FieldVal.vnone,
    anchor := FieldVal.vnone, pattern := FieldVal.vnone, match_ := FieldVal.vnone }

/-- Witness for C10: the blank-id leaf's anchor does match the document
(`"SKILLS"` resolves at offset 0), yet removing the blank-id entries does
not change the output. -/
theorem c10_blank_id_skipped_witness :
    strip blankSecC10.id = "" ∧ strip blankGrpC10.id = "" ∧
    0 ≤ findHeadingIdxFuzzy rawC10.data ("SKILLS") 0 ∧
    split_resume_by_schema rawC10 ⟨[], [keptSecC10] ++ blankSecC10 :: []⟩ =
      split_resume_by_schema rawC10 ⟨[], [keptSecC10] ++ []⟩ ∧
    split_resume_by_schema rawC10 ⟨[] ++ blankGrpC10 :: [], [keptSecC10]⟩ =
      split_resume_by_schema rawC10 ⟨[] ++ [], [keptSecC10]⟩ :=
  ⟨by decide, by decide, by decide,
   (c10_blank_id_skipped rawC10 blankSecC10 blankGrpC10 (by decide) (by decide)).1
     [] [keptSecC10] [],
   (c10_blank_id_skipped rawC10 blankSecC10 blankGrpC10 (by decide) (by decide)).2
     [] [] [keptSecC10]⟩

/-- Claim C8: a leaf's end boundary comes from scanning the end candidates
strictly after the start; failing that, from the minimum group-anchor
offset strictly greater than the start, else the end of text; a resolved
end not strictly greater than the start is clamped to the end of text, and
every produced span has strictly positive length. -/
theorem c8_end_boundary (raw : String) (gs : List Grp) (sec : SecD) (sp : Span)
    (hraw : strip raw ≠ "")
    (hsp : buildSpan raw.data (buildGroupAnchor raw.data gs) sec = some sp) :
    sp.start_idx = resolveStart raw.data (buildGroupAnchor raw.data gs) sec ∧
    sp.end_idx = resolveEnd raw.data (buildGroupAnchor raw.data gs) sec sp.start_idx ∧
    (0 ≤ scanCands raw.data (getAnchorCandidates sec false) (sp.start_idx + 1) →
      sp.end_idx =
        (if (scanCands raw.data (getAnchorCandidates sec false)
              (sp.start_idx + 1)).toNat ≤ sp.start_idx
         then raw.data.length
         else (scanCands raw.data (getAnchorCandidates sec false)
                (sp.start_idx + 1)).toNat)) ∧
    (scanCands raw.data (getAnchorCandidates sec false) (sp.start_idx + 1) < 0 →
      ((∃ v ∈ gaValues (buildGroupAnchor raw.data gs), (sp.start_idx : Int) < v ∧
          v.toNat = sp.end_idx ∧
          ∀ w ∈ gaValues (buildGroupAnchor raw.data gs),
            (sp.start_idx : Int) < w → v ≤ w) ∨
       ((∀ v ∈ gaValues (buildGroupAnchor raw.data gs), ¬ (sp.start_idx : Int) < v) ∧
          sp.end_idx = raw.data.length))) ∧
    sp.start_idx < sp.end_idx := by
  obtain ⟨hsid, hleaf, rfl⟩ := buildSpan_some_elim hsp
  have hrc : raw.data ≠ [] := data_ne_nil_of_strip hraw
  have hs := resolveStart_lt_length gs sec hrc
  refine ⟨rfl, rfl, ?_⟩
  exact resolveEnd_spec raw.data (buildGroupAnchor raw.data gs) sec
    (resolveStart raw.data (buildGroupAnchor raw.data gs) sec) hs

def rawC8 : String := "ALPHA\nbody text\nBETA\nmore"

def grpC8 : Grp := { id := "g", title := some "BETA" }

def secC8 : SecD :=
  { id := "a", title := some "Able", parentId := none, isGroup := false,
    anchors := none, start := FieldVal.vstr ("ALPHA"), end_ := FieldVal.vstr ("BETA"),
    anchor := FieldVal.vnone, pattern := FieldVal.vnone, match_ := FieldVal.vnone }

def spC8 : Span :=
  { sec_id := "a", title := "Able", parentId := none, start_idx := 0, end_idx := 16,
    text := "body text" }

/-- Witness for C8 at a concrete input: the span `[0, 16)` of the leaf
whose end anchor `"BETA"` resolves at offset 16, strictly after its
start. -/
theorem c8_end_boundary_witness :
    strip rawC8 ≠ "" ∧
    buildSpan rawC8.data (buildGroupAnchor rawC8.data [grpC8]) secC8 = some spC8 ∧
    (spC8.start_idx = resolveStart rawC8.data (buildGroupAnchor rawC8.data [grpC8]) secC8 ∧
     spC8.end_idx = resolveEnd rawC8.data (buildGroupAnchor rawC8.data [grpC8]) secC8
        spC8.start_idx ∧
     (0 ≤ scanCands rawC8.data (getAnchorCandidates secC8 false) (spC8.start_idx + 1) →
       spC8.end_idx =
         (if (scanCands rawC8.data (getAnchorCandidates secC8 false)
               (spC8.start_idx + 1)).toNat ≤ spC8.start_idx
          then rawC8.data.length
          else (scanCands rawC8.data (getAnchorCandidates secC8 false)
                 (spC8.start_idx + 1)).toNat)) ∧
     (scanCands rawC8.data (getAnchorCandidates secC8 false) (spC8.start_idx + 1) < 0 →
       ((∃ v ∈ gaValues (buildGroupAnchor rawC8.data [grpC8]), (spC8.start_idx : Int) < v ∧
           v.toNat = spC8.end_idx ∧
           ∀ w ∈ gaValues (buildGroupAnchor rawC8.data [grpC8]),
             (spC8.start_idx : Int) < w → v ≤ w) ∨
        ((∀ v ∈ gaValues (buildGroupAnchor rawC8.data [grpC8]),
            ¬ (spC8.start_idx : Int) < v) ∧
           spC8.end_idx = rawC8.data.length))) ∧
     spC8.start_idx < spC8.end_idx) :=
  ⟨by decide, by decide,
   c8_end_boundary rawC8 [grpC8] secC8 spC8 (by decide) (by decide)⟩

/-- Claim C9: the splitter's final list is the stable sort of group nodes
(at their positions) and leaf nodes (at `start_idx + 1`) by
`(position, group-before-leaf)`, de-duplicated by `(id, isGroup)` keeping
the first occurrence in sorted order: every `(id, isGroup)` key of the
merged nodes survives exactly once, so two sections sharing an id but
differing in `isGroup` both survive while a literal duplicate appears
once. -/
theorem c9_sort_dedup (raw : String) (sch : Schema) (hraw : strip raw ≠ "") :
    split_resume_by_schema raw sch =
      dedupNodes ((sortNodes (allNodesOf raw.data sch)).map (fun x => x.2)) ∧
    (sortNodes (allNodesOf raw.data sch)).Pairwise (fun a b => keyLe a b = true) ∧
    (∀ sp ∈ splitSpans raw.data (buildGroupAnchor raw.data sch.groups) sch.sections,
       (sp.start_idx + 1, leafNode sp) ∈ allNodesOf raw.data sch) ∧
    (split_resume_by_schema raw sch).Pairwise (fun a b => nodeKey a ≠ nodeKey b) ∧
    (∀ x ∈ allNodesOf raw.data sch,
       ∃ m ∈ split_resume_by_schema raw sch, nodeKey m = nodeKey x.2) ∧
    (∀ m ∈ split_resume_by_schema raw sch,
       ∃ pre post,
         (sortNodes (allNodesOf raw.data sch)).map (fun x => x.2) = pre ++ m :: post ∧
         ∀ q ∈ pre, nodeKey q ≠ nodeKey m) := by
  have heq : split_resume_by_schema raw sch =
      dedupNodes ((sortNodes (allNodesOf raw.data sch)).map (fun x => x.2)) := by
    unfold split_resume_by_schema
    rw [if_neg hraw]
  refine ⟨heq, sortNodes_sorted _, ?_, ?_, ?_, ?_⟩
  · intro sp hsp
    exact span_mem_allNodes hsp
  · rw [heq]
    unfold dedupNodes
    exact dedupGo_pairwise
  · intro x hx
    exact mem_split_of_key hraw hx
  · intro m hm
    rw [heq] at hm
    unfold dedupNodes at hm
    obtain ⟨pre, post, he, hpre⟩ := dedupGo_first_occurrence hm
    refine ⟨pre, post, he, ?_⟩
    intro q hq
    rcases hpre q hq with h1 | h1
    · exact h1
    · simp at h1

def rawC9 : String := "ALPHA\none\nBETA\ntwo"

def dupLeafC9 : SecD :=
  { id := "dup", title := some "DupLeaf", parentId := none, isGroup := false,
    anchors := none, start := FieldVal.vstr ("ALPHA"), end_ := FieldVal.vstr ("BETA"),
    anchor := FieldVal.vnone, pattern := FieldVal.vnone, match_ := FieldVal.vnone }

def twinLeafC9 : SecD :=
  { id := "twin", title := some "Twin", parentId := none, isGroup := false,
    anchors := none, start := FieldVal.vstr ("BETA"), end_ := FieldVal.vnone,
    anchor := FieldVal.vnone, pattern := FieldVal.vnone, match_ := FieldVal.vnone }

def schC9 : Schema :=
  { groups := [{ id := "dup", title := some "ALPHA" }],
    sections := [dupLeafC9, twinLeafC9, twinLeafC9] }

/-- Witness for C9 at a schema holding a group and a leaf that share the
id `"dup"` (both survive) and a literally duplicated leaf `"twin"`
(appears once). -/
theorem c9_sort_dedup_witness :
    strip rawC9 ≠ "" ∧
    split_resume_by_schema rawC9 schC9 =
      [{ id := "dup", title := "ALPHA", text := "", parentId := none, isGroup := true },
       { id := "dup", title := "DupLeaf", text := "one", parentId := none, isGroup := false },
       { id := "twin", title := "Twin", text := "two", parentId := none, isGroup := false }] ∧
    ((split_resume_by_schema rawC9 schC9).Pairwise (fun a b => nodeKey a ≠ nodeKey b) ∧
     (∀ x ∈ allNodesOf rawC9.data schC9,
        ∃ m ∈ split_resume_by_schema rawC9 schC9, nodeKey m = nodeKey x.2)) :=
  ⟨by decide, by decide,
   ⟨(c9_sort_dedup rawC9 schC9 (by decide)).2.2.2.1,
    (c9_sort_dedup rawC9 schC9 (by decide)).2.2.2.2.1⟩⟩

/-- Claim C5: for non-blank raw text parsed with no schema, the result is
a successful parse in mode `fallback_unknown` whose section list is
exactly the one catch-all node
`{id:"unknown", title:"UNKNOWN", text:raw, isGroup:false}`. -/
theorem c5_no_schema_single_unknown (raw : String) (hraw : strip raw ≠ "") :
    parse raw none =
      ⟨true, "fallback_unknown",
       [{ id := "unknown", title := "UNKNOWN", text := raw, parentId := none,
          isGroup := false }], none⟩ :=
  parse_none_eq raw hraw

def rawC5 : String := "john doe resume body"

/-- Witness for C5 at concrete non-blank text. -/
theorem c5_no_schema_single_unknown_witness :
    strip rawC5 ≠ "" ∧
    parse rawC5 none =
      ⟨true, "fallback_unknown",
       [{ id := "unknown", title := "UNKNOWN", text := rawC5, parentId := none,
          isGroup := false }], none⟩ :=
  ⟨by decide, c5_no_schema_single_unknown rawC5 (by decide)⟩

def rawC6 : String := "non empty resume body text"

def schC6 : Schema := { groups := [], sections := [] }

/-- Counterexample to C6 as stated: with non-blank extracted text and a
schema whose splitter output is empty, `parse` reports an outright failure
(`ok = false` with an empty section list) although the text is readable and
no exception is involved — a third `ok:false` path beyond the two the
claim allows. -/
theorem c6_counterexample :
    strip rawC6 ≠ "" ∧
    (checkSchemaAnchorMatch schC6 rawC6).shouldFallback = false ∧
    parse rawC6 (some schC6) =
      ⟨false, "error", [], some "schema parsing produced 0 sections"⟩ :=
  ⟨by decide, by decide, by decide⟩

/-- Claim C6 (amended): at the parse boundary, `ok = false` holds exactly
for blank extracted text or for a schema that passes the anchor check but
yields zero splitter sections (the splitter-crash path of the Python code
has no counterpart in this total model); an anchor mismatch is reported as
a successful fallback parse, and every `fallback_unknown`-mode result is a
success. -/
theorem c6_failure_modes (raw : String) (schemaObj : Option Schema) :
    ((parse raw schemaObj).ok = false ↔
      (strip raw = "" ∨
       (∃ sch, schemaObj = some sch ∧
         (checkSchemaAnchorMatch sch raw).shouldFallback = false ∧
         split_resume_by_schema raw sch = []))) ∧
    (∀ sch, schemaObj = some sch → strip raw ≠ "" →
      (checkSchemaAnchorMatch sch raw).shouldFallback = true →
      parse raw schemaObj = fallbackResp raw) ∧
    ((parse raw schemaObj).mode = "fallback_unknown" → (parse raw schemaObj).ok = true) := by
  by_cases hraw : strip raw = ""
  · rw [parse_blank raw schemaObj hraw]
    refine ⟨⟨fun _ => Or.inl hraw, fun _ => rfl⟩, ?_, ?_⟩
    · intro sch hs hcontra
      exact absurd hraw hcontra
    · intro hmode
      exact absurd hmode (by decide)
  · cases schemaObj with
    | none =>
        rw [parse_none_eq raw hraw]
        refine ⟨⟨fun h => Bool.noConfusion h, ?_⟩, ?_, fun _ => rfl⟩
        · intro h
          rcases h with h1 | ⟨sch, hcontra, -, -⟩
          · exact absurd h1 hraw
          · exact Option.noConfusion hcontra
        · intro sch hcontra
          exact absurd hcontra (by intro hx; exact Option.noConfusion hx)
    | some sch =>
        cases hfb : (checkSchemaAnchorMatch sch raw).shouldFallback with
        | true =>
            rw [parse_anchor_fb raw sch hraw hfb]
            refine ⟨⟨fun h => Bool.noConfusion h, ?_⟩, ?_, fun _ => rfl⟩
            · intro h
              rcases h with h1 | ⟨sch2, heq, hfb2, -⟩
              · exact absurd h1 hraw
              · obtain rfl : sch = sch2 := by
                  have := (Option.some.injEq _ _).mp heq
                  exact this
                rw [hfb] at hfb2
                exact Bool.noConfusion hfb2
            · intro sch2 heq hr hf
              obtain rfl : sch = sch2 := (Option.some.injEq _ _).mp heq
              rfl
        | false =>
            by_cases hempty : split_resume_by_schema raw sch = []
            · rw [parse_zero_sections raw sch hraw hfb hempty]
              refine ⟨⟨fun _ => Or.inr ⟨sch, rfl, hfb, hempty⟩, fun _ => rfl⟩, ?_, ?_⟩
              · intro sch2 heq hr hf
                obtain rfl : sch = sch2 := (Option.some.injEq _ _).mp heq
                rw [hfb] at hf
                exact Bool.noConfusion hf
              · intro hmode
                exact absurd hmode (by decide)
            · rw [parse_gate raw sch hraw hfb hempty]
              have hok := qualityGate_ok raw (normalizeNodes (split_resume_by_schema raw sch))
              refine ⟨⟨?_, ?_⟩, ?_, fun _ => hok⟩
              · intro h
                rw [hok] at h
                exact Bool.noConfusion h
              · intro h
                rcases h with h1 | ⟨sch2, heq, -, hemp2⟩
                · exact absurd h1 hraw
                · obtain rfl : sch = sch2 := (Option.some.injEq _ _).mp heq
                  exact absurd hemp2 hempty
              · intro sch2 heq hr hf
                obtain rfl : sch = sch2 := (Option.some.injEq _ _).mp heq
                rw [hfb] at hf
                exact Bool.noConfusion hf

def rawW6 : String := "plain resume text with none of the declared anchors"

def schW6 : Schema :=
  { groups := [],
    sections :=
      [{ id := "x", title := none, parentId := none, isGroup := false,
         anchors := none, start := FieldVal.vstr ("QQAA"), end_ := FieldVal.vstr ("WWBB"),
         anchor := FieldVal.vnone, pattern := FieldVal.vnone, match_ := FieldVal.vnone }] }

/-- Witness for the amended C6: an anchor mismatch (two declared anchors,
none matched) is reported as a successful fallback parse. -/
theorem c6_failure_modes_witness :
    parse rawW6 (some schW6) = fallbackResp rawW6 :=
  (c6_failure_modes rawW6 (some schW6)).2.1 schW6 rfl (by decide) (by decide)

theorem node_filter_lengths (ns : List Node) :
    ((ns.filter (fun s => s.isGroup)).length +
      (ns.filter (fun s => !s.isGroup)).length = ns.length) := by
  induction ns with
  | nil => rfl
  | cons x xs ih =>
      have ih2 : (List.filter Node.isGroup xs).length +
          (List.filter (fun s => !s.isGroup) xs).length = xs.length := ih
      by_cases h : x.isGroup = true
      · rw [List.filter_cons_of_pos h, List.filter_cons_of_neg (by simp [h])]
        simp only [List.length_cons]
        omega
      · rw [List.filter_cons_of_neg (by simpa using h), List.filter_cons_of_pos (by simp [h])]
        simp only [List.length_cons]
        omega

def rawC4 : String := "some perfectly fine document text"

def blankSecC4 : SecD :=
  { id := " ", title := some "Blank", parentId := none, isGroup := false,
    anchors := none, start := FieldVal.vnone, end_ := FieldVal.vnone,
    anchor := FieldVal.vnone, pattern := FieldVal.vnone, match_ := FieldVal.vnone }

def schC4 : Schema := { groups := [], sections := [blankSecC4] }

/-- Counterexample to C4 as stated: when the schema produces zero splitter
nodes, the parse result is an outright failure (`ok:false`, empty section
list) — the quality gate does not substitute the single catch-all fallback
node, and the mode is not `fallback_unknown`. -/
theorem c4_counterexample :
    split_resume_by_schema rawC4 schC4 = [] ∧
    parse rawC4 (some schC4) =
      ⟨false, "error", [], some "schema parsing produced 0 sections"⟩ ∧
    (parse rawC4 (some schC4)).sections ≠ [unknownNode rawC4] ∧
    (parse rawC4 (some schC4)).mode ≠ "fallback_unknown" :=
  ⟨by decide, by decide, by decide, by decide⟩

/-- Claim C4 (amended): with a schema that passes the anchor check and a
non-empty splitter output (the zero-node case is an `ok:false` error, not
a fallback), the quality gate replaces the result with the single
catch-all node exactly when there is at least one group node and no leaf,
or leaves exist with fewer than 30 percent non-blank or under 200 total
trimmed characters; otherwise the mode is `schema` and the splitter output
is returned unchanged. -/
theorem c4_quality_gate (raw : String) (sch : Schema)
    (hraw : strip raw ≠ "")
    (hanch : (checkSchemaAnchorMatch sch raw).shouldFallback = false)
    (hsplit : split_resume_by_schema raw sch ≠ [])
    (hwf : ∀ n ∈ split_resume_by_schema raw sch, n.id ≠ "" ∧ n.title ≠ "") :
    (parse raw (some sch) = fallbackResp raw ↔
      ((0 < ((split_resume_by_schema raw sch).filter (fun s => s.isGroup)).length ∧
         ((split_resume_by_schema raw sch).filter (fun s => !s.isGroup)).length = 0) ∨
       (0 < ((split_resume_by_schema raw sch).filter (fun s => !s.isGroup)).length ∧
         (10 * ((split_resume_by_schema raw sch).filter
             (fun s => !s.isGroup && decide (strip s.text ≠ ""))).length <
            3 * ((split_resume_by_schema raw sch).filter (fun s => !s.isGroup)).length ∨
          (((split_resume_by_schema raw sch).filter (fun s => !s.isGroup)).map
             (fun s => (strip s.text).length)).sum < 200)))) ∧
    (¬ gateFails (split_resume_by_schema raw sch) →
      parse raw (some sch) = ⟨true, "schema", split_resume_by_schema raw sch, none⟩) := by
  have hnorm : normalizeNodes (split_resume_by_schema raw sch) =
      split_resume_by_schema raw sch := normalizeNodes_eq_self hwf
  have hp : parse raw (some sch) = qualityGate raw (split_resume_by_schema raw sch) := by
    rw [parse_gate raw sch hraw hanch hsplit, hnorm]
  have hlen := node_filter_lengths (split_resume_by_schema raw sch)
  have hlenpos : 0 < (split_resume_by_schema raw sch).length := List.length_pos.mpr hsplit
  constructor
  · constructor
    · intro hfb
      by_cases hgf : gateFails (split_resume_by_schema raw sch)
      · rcases hgf with h1 | h2 | h3
        · exact Or.inl h1
        · exact Or.inr h2
        · exfalso
          omega
      · rw [hp] at hfb
        exact absurd hfb (qualityGate_not_fallback raw _ hgf)
    · intro h2d
      rw [hp]
      apply qualityGate_fail
      rcases h2d with h1 | h2
      · exact Or.inl h1
      · exact Or.inr (Or.inl h2)
  · intro hng
    rw [hp]
    exact qualityGate_pass raw _ hng

def rawW4 : String := "HEADER\nJohn Doe\n\nEXPERIENCE\nDid things.\n\nEDUCATION\nBSc."

def leafW4 : SecD :=
  { id := "l1", title := some "Leaf", parentId := some "g1", isGroup := false,
    anchors := some (FieldVal.vlist ["EXPERIENCE"], FieldVal.vlist ["EDUCATION"]),
    start := FieldVal.vnone, end_ := FieldVal.vnone, anchor := FieldVal.vnone,
    pattern := FieldVal.vnone, match_ := FieldVal.vnone }

def schW4 : Schema :=
  { groups := [{ id := "g1", title := some "EXPERIENCE" }], sections := [leafW4] }

/-- Witness for the amended C4: the splitter extracts only 11 characters
of leaf text (below the 200-character threshold), so the gate replaces the
output with the catch-all node. -/
theorem c4_quality_gate_witness :
    strip rawW4 ≠ "" ∧
    (checkSchemaAnchorMatch schW4 rawW4).shouldFallback = false ∧
    split_resume_by_schema rawW4 schW4 ≠ [] ∧
    parse rawW4 (some schW4) = fallbackResp rawW4 :=
  ⟨by decide, by decide, by decide,
   (c4_quality_gate rawW4 schW4 (by decide) (by decide) (by decide) (by decide)).1.mpr
     (by decide)⟩

/-- One field's anchor strings as the specification words it ("every
literal anchor string declared" in the field): string values and the
strings inside list values alike, non-blank after stripping.  Stated only
for comparison with the code's `fieldAnchorStrings`. -/
def fieldDeclaredStrings (v : FieldVal) : List String :=
  match v with
  | .vnone => []
  | .vstr s => if strip s = "" then [] else [strip s]
  | .vlist xs => xs.filterMap (fun x => if strip x = "" then none else some (strip x))

/-- All anchor strings literally declared in the `start`, `end`, `anchor`,
`pattern` and `match` fields of the schema's sections, as the claim words
it.  Stated only for comparison with `extractSchemaAnchors`. -/
def declaredAnchorStringsSpec (schema : Schema) : List String :=
  (schema.sections.map (fun s =>
    fieldDeclaredStrings s.start ++ fieldDeclaredStrings s.end_ ++
    fieldDeclaredStrings s.anchor ++ fieldDeclaredStrings s.pattern ++
    fieldDeclaredStrings s.match_)).flatten

def rawC3 : String := "this resume was written as one very long single line of plain prose with no section markers anywhere in it, so the splitter receives the whole document as a single chunk of text that is long enough to pass the post split quality gate checks."

def secC3 : SecD :=
  { id := "a", title := some "Sec", parentId := none, isGroup := false,
    anchors := none, start := FieldVal.vlist ["EXPERIENCE", "EDUCATION"],
    end_ := FieldVal.vnone, anchor := FieldVal.vnone,
    pattern := FieldVal.vnone, match_ := FieldVal.vnone }

def schC3 : Schema := { groups := [], sections := [secC3] }

set_option maxRecDepth 100000 in
/-- Counterexample to C3 as stated: two anchor strings are declared in the
`start` field (as a list) and neither matches the document, so the claim
requires the pre-split check to fail with `total = 2, matched = 0`; but
the code collects only string-valued fields, sees zero anchors, skips the
check, and the parse completes in mode `schema`. -/
theorem c3_counterexample :
    declaredAnchorStringsSpec schC3 = ["EXPERIENCE", "EDUCATION"] ∧
    ((declaredAnchorStringsSpec schC3).filter (anchorMatchedIn rawC3)).length = 0 ∧
    extractSchemaAnchors schC3 = [] ∧
    (checkSchemaAnchorMatch schC3 rawC3).shouldFallback = false ∧
    (parse rawC3 (some schC3)).mode = "schema" :=
  ⟨by decide, by decide, by decide, by decide, by decide⟩

/-- Claim C3 (amended): only non-blank string-valued `start`, `end`,
`anchor`, `pattern`, `match` fields contribute anchors (strings inside
list-valued fields and the `anchors` object are not collected); with zero
such strings the check is skipped, and otherwise it fails exactly when at
least two anchors exist and none matched, or fewer than ten percent
matched; a failing check makes the parse return the fallback response. -/
theorem c3_anchor_check (sch : Schema) (raw : String) :
    (extractSchemaAnchors sch = [] →
      (checkSchemaAnchorMatch sch raw).shouldFallback = false) ∧
    (extractSchemaAnchors sch ≠ [] →
      ((checkSchemaAnchorMatch sch raw).shouldFallback = true ↔
        ((2 ≤ (extractSchemaAnchors sch).length ∧
          ((extractSchemaAnchors sch).filter (anchorMatchedIn raw)).length = 0) ∨
         10 * ((extractSchemaAnchors sch).filter (anchorMatchedIn raw)).length <
           (extractSchemaAnchors sch).length))) ∧
    ((checkSchemaAnchorMatch sch raw).shouldFallback = true → strip raw ≠ "" →
      parse raw (some sch) = fallbackResp raw) := by
  refine ⟨?_, ?_, ?_⟩
  · intro he
    simp [checkSchemaAnchorMatch, he]
  · intro hne
    simp only [checkSchemaAnchorMatch,
      if_neg (show ¬ (extractSchemaAnchors sch).isEmpty = true from
        fun hx => hne (List.isEmpty_iff.mp hx))]
    simp [Bool.or_eq_true, Bool.and_eq_true, decide_eq_true_eq]
  · intro hfb hraw
    exact parse_anchor_fb raw sch hraw hfb

def rawW3 : String := "plain short text"

def schW3 : Schema :=
  { groups := [],
    sections :=
      [{ id := "x", title := none, parentId := none, isGroup := false,
         anchors := none, start := FieldVal.vstr ("QQAA"), end_ := FieldVal.vstr ("WWBB"),
         anchor := FieldVal.vnone, pattern := FieldVal.vstr ("EECC"),
         match_ := FieldVal.vnone }] }

/-- Witness for the amended C3: three string anchors, none matched, cause
the check to fail and the parse to return the fallback response. -/
theorem c3_anchor_check_witness :
    (checkSchemaAnchorMatch schW3 rawW3).shouldFallback = true ∧
    strip rawW3 ≠ "" ∧
    parse rawW3 (some schW3) = fallbackResp rawW3 :=
  ⟨by decide, by decide, (c3_anchor_check schW3 rawW3).2.2 (by decide) (by decide)⟩

def rawC7 : String := "awards won in 2019 by me\nFirst body line.\nSecond body line."

def secC7 : SecD :=
  { id := "a", title := some "Awards", parentId := none, isGroup := false,
    anchors := none, start := FieldVal.vstr ("awards"), end_ := FieldVal.vnone,
    anchor := FieldVal.vnone, pattern := FieldVal.vnone, match_ := FieldVal.vnone }

def schC7 : Schema := { groups := [], sections := [secC7] }

/-- Counterexample to C7 as stated: the first line of the slice restates
the start anchor (its normalized form contains the normalized `"awards"`
anchor), so the claim requires that line to be dropped from the span text;
the splitter keeps it, because the only check it performs is the
`_looks_like_heading` heuristic on the first line, which rejects this
line — the anchor-prefix rule plays no part. -/
theorem c7_counterexample :
    split_resume_by_schema rawC7 schC7 =
      [{ id := "a", title := "Awards", text := rawC7, parentId := none,
         isGroup := false }] ∧
    containsSub
      (List.map pyUpper (List.filter keepChar ((pySplitlines rawC7.data).headD [])))
      (List.map pyUpper (List.filter keepChar ("awards").data)) = true ∧
    looksLikeHeading (pyStrip ((pySplitlines rawC7.data).headD [])) ("Awards") = false :=
  ⟨by decide, by decide, by decide⟩

/-- Claim C7 (amended): every leaf node of the splitter output comes from
a span, and its text is the trimmed slice with a restated heading stripped
by inspecting only the first line: the line (and the blank lines after it)
is dropped exactly when the `_looks_like_heading` heuristic accepts it;
the declared start anchor and the section title play no part in the
decision. -/
theorem c7_heading_strip (raw : String) (sch : Schema) (n : Node)
    (hn : n ∈ split_resume_by_schema raw sch) (hleaf : n.isGroup = false) :
    ∃ sec ∈ sch.sections, ∃ sp,
      buildSpan raw.data (buildGroupAnchor raw.data sch.groups) sec = some sp ∧
      n = leafNode sp ∧
      n.text = (⟨buildLeafText
        ((raw.data.drop sp.start_idx).take (sp.end_idx - sp.start_idx)) sp.title⟩ : String) ∧
      (∀ (slice : List Char) (t1 t2 : String),
        buildLeafText slice t1 = buildLeafText slice t2) ∧
      (∀ (slice : List Char) (t : String),
        looksLikeHeading (pyStrip ((pySplitlines (pyStrip slice)).headD [])) t = false →
        buildLeafText slice t = pyStrip slice) ∧
      (∀ (slice : List Char) (t : String), pyStrip slice ≠ [] →
        looksLikeHeading (pyStrip ((pySplitlines (pyStrip slice)).headD [])) t = true →
        buildLeafText slice t =
          pyStrip (joinLines (((pySplitlines (pyStrip slice)).tail).dropWhile
            (fun l => (pyStrip l).isEmpty)))) := by
  obtain ⟨sec, hsec, sp, hbs, hnsp⟩ := split_leaf_from_span hn hleaf
  refine ⟨sec, hsec, sp, hbs, hnsp, ?_, buildLeafText_title_irrel,
    buildLeafText_no_heading, buildLeafText_heading⟩
  obtain ⟨hsid, hlf, hrec⟩ := buildSpan_some_elim hbs
  rw [hnsp, hrec]
  rfl

def rawW7 : String := "SKILLS\n\npython and sql"

def secW7 : SecD :=
  { id := "s", title := some "Skills", parentId := none, isGroup := false,
    anchors := none, start := FieldVal.vstr ("SKILLS"), end_ := FieldVal.vnone,
    anchor := FieldVal.vnone, pattern := FieldVal.vnone, match_ := FieldVal.vnone }

def schW7 : Schema := { groups := [], sections := [secW7] }

def nodeW7 : Node :=
  { id := "s", title := "Skills", text := "python and sql", parentId := none,
    isGroup := false }

/-- Witness for the amended C7: the heading-looking first line `"SKILLS"`
and the blank line after it are stripped from the leaf's text. -/
theorem c7_heading_strip_witness :
    nodeW7 ∈ split_resume_by_schema rawW7 schW7 ∧
    nodeW7.isGroup = false ∧
    (∃ sec ∈ schW7.sections, ∃ sp,
      buildSpan rawW7.data (buildGroupAnchor rawW7.data schW7.groups) sec = some sp ∧
      nodeW7 = leafNode sp ∧
      nodeW7.text = (⟨buildLeafText
        ((rawW7.data.drop sp.start_idx).take (sp.end_idx - sp.start_idx)) sp.title⟩ : String) ∧
      (∀ (slice : List Char) (t1 t2 : String),
        buildLeafText slice t1 = buildLeafText slice t2) ∧
      (∀ (slice : List Char) (t : String),
        looksLikeHeading (pyStrip ((pySplitlines (pyStrip slice)).headD [])) t = false →
        buildLeafText slice t = pyStrip slice) ∧
      (∀ (slice : List Char) (t : String), pyStrip slice ≠ [] →
        looksLikeHeading (pyStrip ((pySplitlines (pyStrip slice)).headD [])) t = true →
        buildLeafText slice t =
          pyStrip (joinLines (((pySplitlines (pyStrip slice)).tail).dropWhile
            (fun l => (pyStrip l).isEmpty))))) :=
  ⟨by decide, by decide,
   c7_heading_strip rawW7 schW7 nodeW7 (by decide) (by decide)⟩
end ResumeSpec
